import Mathlib

/-!
# Verification of the koine SEV attestation message codec

This file is a shallow embedding of the attestation message protocol of the
koine repository (src/src/attestation/sev.rs).  The Rust code defines the
`Message` enum (six variants, kebab-case external tags) together with the
container payloads `Chain`, `LaunchStart`, `Measurement` and `Finish`, all
serialized with serde via the ciborium CBOR codec.

The embedding has three layers, mirroring the Rust stack:

* a byte-level encoder (`encode`), reproducing what ciborium's serializer
  emits for the serde-derived `Serialize` impls: definite-length maps and
  arrays with minimally-encoded length arguments, text keys, `Vec<u8>`
  fields as arrays of unsigned integers, unit structs as null;
* a byte-level CBOR reader (`parseSeq` / `decode`), reproducing ciborium's
  pull parser on the CBOR subset this protocol uses (unsigned integers,
  byte strings, text strings, definite-length arrays and maps, null).
  Byte inputs outside this subset (for example indefinite-length items,
  tags, floats) are mapped to a decode error; the real decoder would fail
  on them no later than at the typed-decode step below, so every claim's
  error verdict is unaffected;
* an item-level typed decoder (`decodeMessage`), reproducing the
  serde-derived `Deserialize` impls: the outer value must be a map with
  exactly one text-keyed entry naming the variant; struct payloads are
  decoded field-by-field with fixed names, unknown field names ignored
  (serde's default), duplicate and missing fields rejected; `Vec<u8>`
  accepts only arrays of integers below 256; `Finish` accepts only null.

Machine integers are modelled as `Nat` with explicit bounds: a byte is a
`Nat` below 256, and CBOR length arguments are below 2^64 (`u64`), which is
recorded in the `wf` predicates on payloads.
-/

namespace Koine

/-- The byte sequence of an ASCII field or tag name as serialized on the
wire (the UTF-8 encoding of an ASCII string is the list of its character
codes). -/
def strBytes (s : String) : List Nat := s.data.map Char.toNat

/-! Variant tags: the serde attribute rename_all = "kebab-case" on `Message`
turns the six CamelCase variant names into these lowercase-hyphenated tag
strings. -/

def tagNaples : List Nat := strBytes "certificate-chain-naples"

def tagRome : List Nat := strBytes "certificate-chain-rome"

def tagLaunchStart : List Nat := strBytes "launch-start"

def tagMeasurement : List Nat := strBytes "measurement"

def tagSecret : List Nat := strBytes "secret"

def tagFinish : List Nat := strBytes "finish"

/-- The list of the six variant tags, in declaration order of the enum. -/
def allTags : List (List Nat) :=
  [tagNaples, tagRome, tagLaunchStart, tagMeasurement, tagSecret, tagFinish]

/-! Field names of the container payloads, in Rust declaration order. -/

def nameArk : List Nat := strBytes "ark"

def nameAsk : List Nat := strBytes "ask"

def nameOca : List Nat := strBytes "oca"

def nameCek : List Nat := strBytes "cek"

def namePek : List Nat := strBytes "pek"

def namePdh : List Nat := strBytes "pdh"

def namePolicy : List Nat := strBytes "policy"

def nameCert : List Nat := strBytes "cert"

def nameSession : List Nat := strBytes "session"

def nameBuild : List Nat := strBytes "build"

def nameMeasurement : List Nat := strBytes "measurement"

def chainNames : List (List Nat) :=
  [nameArk, nameAsk, nameOca, nameCek, namePek, namePdh]

def launchStartNames : List (List Nat) := [namePolicy, nameCert, nameSession]

def measurementNames : List (List Nat) := [nameBuild, nameMeasurement]

/-! ## Data model (mirrors src/src/attestation/sev.rs) -/

/-- The `Finish` struct: a unit struct with no fields. -/
structure Finish where
deriving DecidableEq

/-- The `LaunchStart` struct: three opaque byte sequences. -/
structure LaunchStart where
  policy : List Nat
  cert : List Nat
  session : List Nat
deriving DecidableEq

/-- The `Chain` struct: the six certificate-chain components, in Rust
declaration order ark, ask, oca, cek, pek, pdh. -/
structure Chain where
  ark : List Nat
  ask : List Nat
  oca : List Nat
  cek : List Nat
  pek : List Nat
  pdh : List Nat
deriving DecidableEq

/-- The `Measurement` struct: two opaque byte sequences. -/
structure Measurement where
  build : List Nat
  measurement : List Nat
deriving DecidableEq

/-- The `Message` enum: six variants, each carrying one payload. -/
inductive Message where
  | certificateChainNaples (c : Chain)
  | certificateChainRome (c : Chain)
  | launchStart (l : LaunchStart)
  | measurement (m : Measurement)
  | secret (bs : List Nat)
  | finish (f : Finish)
deriving DecidableEq

/-- A constructible Rust `Vec<u8>`: every element is a byte and the length
fits in a `u64` (CBOR length argument / usize bound). -/
def bytesWf (bs : List Nat) : Bool :=
  decide (bs.length < 2 ^ 64) && bs.all fun b => decide (b < 256)

def Chain.wf (c : Chain) : Bool :=
  bytesWf c.ark && bytesWf c.ask && bytesWf c.oca &&
    bytesWf c.cek && bytesWf c.pek && bytesWf c.pdh

def LaunchStart.wf (l : LaunchStart) : Bool :=
  bytesWf l.policy && bytesWf l.cert && bytesWf l.session

def Measurement.wf (m : Measurement) : Bool :=
  bytesWf m.build && bytesWf m.measurement

/-- A constructible `Message` value: all payload byte sequences are
constructible Rust vectors. -/
def Message.wf : Message → Bool
  | .certificateChainNaples c => c.wf
  | .certificateChainRome c => c.wf
  | .launchStart l => l.wf
  | .measurement m => m.wf
  | .secret bs => bytesWf bs
  | .finish _ => true

/-! ## CBOR items

The abstract tree shape of a parsed CBOR value, covering the subset of
CBOR this protocol uses.  Map entries are pairs of items; the typed
decoder below requires text keys, as the serde-derived deserializers do
for the representations this protocol emits. -/

inductive Item where
  | int (n : Nat)
  | bytes (bs : List Nat)
  | text (bs : List Nat)
  | array (xs : List Item)
  | map (ps : List (Item × Item))
  | null

/-- Equality of decode results is decidable, so that concrete decoding
facts can be settled by evaluation. -/
instance {ε α : Type} [DecidableEq ε] [DecidableEq α] : DecidableEq (Except ε α)
  | .ok a, .ok b =>
    match decEq a b with
    | isTrue h => isTrue (by rw [h])
    | isFalse h => isFalse (by intro hc; cases hc; exact h rfl)
  | .ok _, .error _ => isFalse (by intro hc; cases hc)
  | .error _, .ok _ => isFalse (by intro hc; cases hc)
  | .error e₁, .error e₂ =>
    match decEq e₁ e₂ with
    | isTrue h => isTrue (by rw [h])
    | isFalse h => isFalse (by intro hc; cases hc; exact h rfl)

/-- Decode errors, following the error taxonomy of the specification. -/
inductive DecodeError where
  | malformedEnvelope
  | unknownVariant
  | payloadShapeMismatch
  | truncatedInput
  | unsupportedItem
  | ambiguousPayloadUnresolvable
deriving DecidableEq

/-! ## Byte-level encoder

ciborium writes definite-length items with minimally-encoded length
arguments: an argument below 24 is packed into the initial byte, larger
arguments follow big-endian in 1, 2, 4 or 8 bytes. -/

/-- The big-endian argument bytes following the initial byte of a CBOR
head, minimal-length as ciborium emits them. -/
def argBytes (n : Nat) : List Nat :=
  if n < 24 then []
  else if n < 2 ^ 8 then [n]
  else if n < 2 ^ 16 then [n / 2 ^ 8, n % 2 ^ 8]
  else if n < 2 ^ 32 then
    [n / 2 ^ 24, n / 2 ^ 16 % 2 ^ 8, n / 2 ^ 8 % 2 ^ 8, n % 2 ^ 8]
  else
    [n / 2 ^ 56 % 2 ^ 8, n / 2 ^ 48 % 2 ^ 8, n / 2 ^ 40 % 2 ^ 8,
     n / 2 ^ 32 % 2 ^ 8, n / 2 ^ 24 % 2 ^ 8, n / 2 ^ 16 % 2 ^ 8,
     n / 2 ^ 8 % 2 ^ 8, n % 2 ^ 8]

/-- The additional-information value packed into the initial byte. -/
def infoOf (n : Nat) : Nat :=
  if n < 24 then n
  else if n < 2 ^ 8 then 24
  else if n < 2 ^ 16 then 25
  else if n < 2 ^ 32 then 26
  else 27

/-- The CBOR head for major type mt with argument n. -/
def hdr (mt n : Nat) : List Nat := (32 * mt + infoOf n) :: argBytes n

/-- A text string item: head of major type 3 followed by the name bytes. -/
def encTextHdr (k : List Nat) : List Nat := hdr 3 k.length ++ k

/-- The elements of a byte-sequence field, each byte an unsigned integer
item of major type 0. -/
def encList (bs : List Nat) : List Nat := (bs.map (hdr 0)).flatten

/-- A `Vec<u8>` field as ciborium serializes it through serde: an array
(major type 4) of unsigned integer items, one per byte; never a CBOR byte
string (major type 2). -/
def encByteArr (bs : List Nat) : List Nat := hdr 4 bs.length ++ encList bs

/-- The `Chain` payload: a map of the six fixed field names, in Rust
declaration order, each mapped to its byte-array encoding. -/
def encodeChain (c : Chain) : List Nat :=
  hdr 5 6 ++
    encTextHdr nameArk ++ encByteArr c.ark ++
    encTextHdr nameAsk ++ encByteArr c.ask ++
    encTextHdr nameOca ++ encByteArr c.oca ++
    encTextHdr nameCek ++ encByteArr c.cek ++
    encTextHdr namePek ++ encByteArr c.pek ++
    encTextHdr namePdh ++ encByteArr c.pdh

/-- The `LaunchStart` payload: a map of its three fixed field names. -/
def encodeLaunchStart (l : LaunchStart) : List Nat :=
  hdr 5 3 ++
    encTextHdr namePolicy ++ encByteArr l.policy ++
    encTextHdr nameCert ++ encByteArr l.cert ++
    encTextHdr nameSession ++ encByteArr l.session

/-- The `Measurement` payload: a map of its two fixed field names. -/
def encodeMeasurement (m : Measurement) : List Nat :=
  hdr 5 2 ++
    encTextHdr nameBuild ++ encByteArr m.build ++
    encTextHdr nameMeasurement ++ encByteArr m.measurement

/-- The variant tag chosen by the serde-derived serializer. -/
def tagOf : Message → List Nat
  | .certificateChainNaples _ => tagNaples
  | .certificateChainRome _ => tagRome
  | .launchStart _ => tagLaunchStart
  | .measurement _ => tagMeasurement
  | .secret _ => tagSecret
  | .finish _ => tagFinish

/-- The encoded payload of each variant.  The unit struct `Finish`
serializes as null (0xF6). -/
def payloadBytes : Message → List Nat
  | .certificateChainNaples c => encodeChain c
  | .certificateChainRome c => encodeChain c
  | .launchStart l => encodeLaunchStart l
  | .measurement m => encodeMeasurement m
  | .secret bs => encByteArr bs
  | .finish _ => [0xF6]

/-- `encode`: the bytes ciborium's into_writer produces for a `Message`:
a single-entry map (0xA1) from the variant tag to the variant payload. -/
def encode (m : Message) : List Nat :=
  hdr 5 1 ++ encTextHdr (tagOf m) ++ payloadBytes m

/-! The item-tree view of the encoded forms, used to state structural
facts about the wire format. -/

/-- The item tree of an encoded `Vec<u8>`: an array of integer items. -/
def byteArrItem (bs : List Nat) : Item := .array (bs.map .int)

def chainPairs (c : Chain) : List (Item × Item) :=
  [(.text nameArk, byteArrItem c.ark), (.text nameAsk, byteArrItem c.ask),
   (.text nameOca, byteArrItem c.oca), (.text nameCek, byteArrItem c.cek),
   (.text namePek, byteArrItem c.pek), (.text namePdh, byteArrItem c.pdh)]

def chainToItem (c : Chain) : Item := .map (chainPairs c)

def launchStartPairs (l : LaunchStart) : List (Item × Item) :=
  [(.text namePolicy, byteArrItem l.policy),
   (.text nameCert, byteArrItem l.cert),
   (.text nameSession, byteArrItem l.session)]

def launchStartToItem (l : LaunchStart) : Item := .map (launchStartPairs l)

def measurementPairs (m : Measurement) : List (Item × Item) :=
  [(.text nameBuild, byteArrItem m.build),
   (.text nameMeasurement, byteArrItem m.measurement)]

def measurementToItem (m : Measurement) : Item := .map (measurementPairs m)

def payloadItemOf : Message → Item
  | .certificateChainNaples c => chainToItem c
  | .certificateChainRome c => chainToItem c
  | .launchStart l => launchStartToItem l
  | .measurement m => measurementToItem m
  | .secret bs => byteArrItem bs
  | .finish _ => .null

/-- The item tree of an encoded `Message`: a map with exactly one entry,
the text tag mapped to the payload item. -/
def msgToItem (m : Message) : Item := .map [(.text (tagOf m), payloadItemOf m)]

/-! ## Byte-level parser

A recursive-descent reader for the CBOR subset above.  `readArg` reads the
length/value argument following an initial byte (accepting non-minimal
encodings, as ciborium does); `parseSeq fuel n bs` reads a sequence of n
consecutive items.  The fuel argument only bounds recursion depth so that
the definition is structurally recursive; `decode` supplies more fuel than
any input of that length can consume. -/

def readArg (info : Nat) (bs : List Nat) : Except DecodeError (Nat × List Nat) :=
  if info < 24 then .ok (info, bs)
  else if info = 24 then
    match bs with
    | b :: r => .ok (b, r)
    | [] => .error .truncatedInput
  else if info = 25 then
    match bs with
    | b₁ :: b₂ :: r => .ok (2 ^ 8 * b₁ + b₂, r)
    | _ => .error .truncatedInput
  else if info = 26 then
    match bs with
    | b₁ :: b₂ :: b₃ :: b₄ :: r =>
        .ok (2 ^ 24 * b₁ + 2 ^ 16 * b₂ + 2 ^ 8 * b₃ + b₄, r)
    | _ => .error .truncatedInput
  else if info = 27 then
    match bs with
    | b₁ :: b₂ :: b₃ :: b₄ :: b₅ :: b₆ :: b₇ :: b₈ :: r =>
        .ok (2 ^ 56 * b₁ + 2 ^ 48 * b₂ + 2 ^ 40 * b₃ + 2 ^ 32 * b₄ +
             2 ^ 24 * b₅ + 2 ^ 16 * b₆ + 2 ^ 8 * b₇ + b₈, r)
    | _ => .error .truncatedInput
  else .error .unsupportedItem

/-- Group a flat key-value item sequence (as read from a map body) into
entry pairs. -/
def pairUp : List Item → Option (List (Item × Item))
  | [] => some []
  | k :: v :: rest => (pairUp rest).map fun ps => (k, v) :: ps
  | [_] => none

def parseSeq : Nat → Nat → List Nat → Except DecodeError (List Item × List Nat)
  | _, 0, bs => .ok ([], bs)
  | 0, _ + 1, _ => .error .truncatedInput
  | _ + 1, _ + 1, [] => .error .truncatedInput
  | fuel + 1, n + 1, b :: r =>
    if b / 32 = 0 then
      match readArg (b % 32) r with
      | .error e => .error e
      | .ok (v, r₁) =>
        match parseSeq fuel n r₁ with
        | .error e => .error e
        | .ok (xs, r₂) => .ok (.int v :: xs, r₂)
    else if b / 32 = 2 then
      match readArg (b % 32) r with
      | .error e => .error e
      | .ok (len, r₁) =>
        if len ≤ r₁.length then
          match parseSeq fuel n (r₁.drop len) with
          | .error e => .error e
          | .ok (xs, r₂) => .ok (.bytes (r₁.take len) :: xs, r₂)
        else .error .truncatedInput
    else if b / 32 = 3 then
      match readArg (b % 32) r with
      | .error e => .error e
      | .ok (len, r₁) =>
        if len ≤ r₁.length then
          match parseSeq fuel n (r₁.drop len) with
          | .error e => .error e
          | .ok (xs, r₂) => .ok (.text (r₁.take len) :: xs, r₂)
        else .error .truncatedInput
    else if b / 32 = 4 then
      match readArg (b % 32) r with
      | .error e => .error e
      | .ok (cnt, r₁) =>
        match parseSeq fuel cnt r₁ with
        | .error e => .error e
        | .ok (ys, r₂) =>
          match parseSeq fuel n r₂ with
          | .error e => .error e
          | .ok (xs, r₃) => .ok (.array ys :: xs, r₃)
    else if b / 32 = 5 then
      match readArg (b % 32) r with
      | .error e => .error e
      | .ok (cnt, r₁) =>
        match parseSeq fuel (2 * cnt) r₁ with
        | .error e => .error e
        | .ok (kvs, r₂) =>
          match pairUp kvs with
          | none => .error .malformedEnvelope
          | some ps =>
            match parseSeq fuel n r₂ with
            | .error e => .error e
            | .ok (xs, r₃) => .ok (.map ps :: xs, r₃)
    else if b = 0xF6 then
      match parseSeq fuel n r with
      | .error e => .error e
      | .ok (xs, r₂) => .ok (.null :: xs, r₂)
    else .error .unsupportedItem

/-! ## Item-level typed decoder (the serde-derived Deserialize impls) -/

/-- serde decodes a `u8` from an unsigned integer item, rejecting values
that do not fit in a byte. -/
def decodeU8 : Item → Except DecodeError Nat
  | .int n => if n < 256 then .ok n else .error .payloadShapeMismatch
  | _ => .error .payloadShapeMismatch

def decodeBytes : List Item → Except DecodeError (List Nat)
  | [] => .ok []
  | x :: xs =>
    match decodeU8 x with
    | .error e => .error e
    | .ok b =>
      match decodeBytes xs with
      | .error e => .error e
      | .ok bs => .ok (b :: bs)

/-- serde decodes a `Vec<u8>` from an array of integer items only. -/
def decodeVecU8 : Item → Except DecodeError (List Nat)
  | .array xs => decodeBytes xs
  | _ => .error .payloadShapeMismatch

/-- A field slot of the serde-derived struct visitor: filling an already
occupied slot is a duplicate-field error; otherwise the entry value is
decoded as a `Vec<u8>`. -/
def setOnce (slot : Option (List Nat)) (v : Item) : Except DecodeError (List Nat) :=
  match slot with
  | some _ => .error .payloadShapeMismatch
  | none => decodeVecU8 v

/-- The serde-derived field loop for `Chain`: entries are visited in wire
order; a known field name fills its slot (a second occurrence is a
duplicate-field error), an unknown field name is ignored (serde default),
and at the end every slot must be filled (a missing field is an error). -/
def decodeChainFields : List (Item × Item) → Option (List Nat) →
    Option (List Nat) → Option (List Nat) → Option (List Nat) →
    Option (List Nat) → Option (List Nat) → Except DecodeError Chain
  | [], ark, ask, oca, cek, pek, pdh =>
    match ark, ask, oca, cek, pek, pdh with
    | some a₁, some a₂, some a₃, some a₄, some a₅, some a₆ =>
      .ok ⟨a₁, a₂, a₃, a₄, a₅, a₆⟩
    | _, _, _, _, _, _ => .error .payloadShapeMismatch
  | (k, v) :: rest, ark, ask, oca, cek, pek, pdh =>
    match k with
    | Item.text kb =>
      if kb = nameArk then
        match setOnce ark v with
        | .ok x => decodeChainFields rest (some x) ask oca cek pek pdh
        | .error e => .error e
      else if kb = nameAsk then
        match setOnce ask v with
        | .ok x => decodeChainFields rest ark (some x) oca cek pek pdh
        | .error e => .error e
      else if kb = nameOca then
        match setOnce oca v with
        | .ok x => decodeChainFields rest ark ask (some x) cek pek pdh
        | .error e => .error e
      else if kb = nameCek then
        match setOnce cek v with
        | .ok x => decodeChainFields rest ark ask oca (some x) pek pdh
        | .error e => .error e
      else if kb = namePek then
        match setOnce pek v with
        | .ok x => decodeChainFields rest ark ask oca cek (some x) pdh
        | .error e => .error e
      else if kb = namePdh then
        match setOnce pdh v with
        | .ok x => decodeChainFields rest ark ask oca cek pek (some x)
        | .error e => .error e
      else decodeChainFields rest ark ask oca cek pek pdh
    | _ => .error .payloadShapeMismatch

def decodeChain : Item → Except DecodeError Chain
  | .map ps => decodeChainFields ps none none none none none none
  | _ => .error .payloadShapeMismatch

/-- The serde-derived field loop for `LaunchStart`. -/
def decodeLaunchStartFields : List (Item × Item) → Option (List Nat) →
    Option (List Nat) → Option (List Nat) → Except DecodeError LaunchStart
  | [], policy, cert, session =>
    match policy, cert, session with
    | some a₁, some a₂, some a₃ => .ok ⟨a₁, a₂, a₃⟩
    | _, _, _ => .error .payloadShapeMismatch
  | (k, v) :: rest, policy, cert, session =>
    match k with
    | Item.text kb =>
      if kb = namePolicy then
        match setOnce policy v with
        | .ok x => decodeLaunchStartFields rest (some x) cert session
        | .error e => .error e
      else if kb = nameCert then
        match setOnce cert v with
        | .ok x => decodeLaunchStartFields rest policy (some x) session
        | .error e => .error e
      else if kb = nameSession then
        match setOnce session v with
        | .ok x => decodeLaunchStartFields rest policy cert (some x)
        | .error e => .error e
      else decodeLaunchStartFields rest policy cert session
    | _ => .error .payloadShapeMismatch

def decodeLaunchStart : Item → Except DecodeError LaunchStart
  | .map ps => decodeLaunchStartFields ps none none none
  | _ => .error .payloadShapeMismatch

/-- The serde-derived field loop for `Measurement`. -/
def decodeMeasurementFields : List (Item × Item) → Option (List Nat) →
    Option (List Nat) → Except DecodeError Measurement
  | [], build, meas =>
    match build, meas with
    | some a₁, some a₂ => .ok ⟨a₁, a₂⟩
    | _, _ => .error .payloadShapeMismatch
  | (k, v) :: rest, build, meas =>
    match k with
    | Item.text kb =>
      if kb = nameBuild then
        match setOnce build v with
        | .ok x => decodeMeasurementFields rest (some x) meas
        | .error e => .error e
      else if kb = nameMeasurement then
        match setOnce meas v with
        | .ok x => decodeMeasurementFields rest build (some x)
        | .error e => .error e
      else decodeMeasurementFields rest build meas
    | _ => .error .payloadShapeMismatch

def decodeMeasurement : Item → Except DecodeError Measurement
  | .map ps => decodeMeasurementFields ps none none
  | _ => .error .payloadShapeMismatch

/-- The unit struct `Finish` deserializes from null only. -/
def decodeFinish : Item → Except DecodeError Finish
  | .null => .ok ⟨⟩
  | _ => .error .payloadShapeMismatch

/-- The serde-derived enum deserializer for `Message`: the value must be a
map with exactly one entry whose key is the text tag of a variant; the
entry value is decoded with the deserializer of that variant's payload. -/
def decodeTagged (k : List Nat) (v : Item) : Except DecodeError Message :=
  if k = tagNaples then
    match decodeChain v with
    | .ok c => .ok (.certificateChainNaples c)
    | .error e => .error e
  else if k = tagRome then
    match decodeChain v with
    | .ok c => .ok (.certificateChainRome c)
    | .error e => .error e
  else if k = tagLaunchStart then
    match decodeLaunchStart v with
    | .ok l => .ok (.launchStart l)
    | .error e => .error e
  else if k = tagMeasurement then
    match decodeMeasurement v with
    | .ok m => .ok (.measurement m)
    | .error e => .error e
  else if k = tagSecret then
    match decodeVecU8 v with
    | .ok bs => .ok (.secret bs)
    | .error e => .error e
  else if k = tagFinish then
    match decodeFinish v with
    | .ok f => .ok (.finish f)
    | .error e => .error e
  else .error .unknownVariant

def decodeMessage : Item → Except DecodeError Message
  | .map ps =>
    match ps with
    | [(k, v)] =>
      match k with
      | Item.text kb => decodeTagged kb v
      | _ => .error .malformedEnvelope
    | _ => .error .malformedEnvelope
  | _ => .error .malformedEnvelope

/-- `decode`: parse one CBOR item from the front of the input (trailing
bytes are left unread, as ciborium's from_reader does) and run the typed
decoder on it.  The fuel bound length + 1 exceeds the recursion depth any
input of that length can produce, since every recursive step of `parseSeq`
consumes at least one input byte before descending. -/
def decode (bs : List Nat) : Except DecodeError Message :=
  match parseSeq (bs.length + 1) 1 bs with
  | .error e => .error e
  | .ok ([i], _) => decodeMessage i
  | .ok (_, _) => .error .malformedEnvelope

/-! ## Parser correctness on encoder output

`ParsesTo K cnt bytes xs` states that, at any recursion budget of at least
K, the reader consumes exactly the given bytes from the front of the input
and yields the item sequence xs. -/

def ParsesTo (K cnt : Nat) (bytes : List Nat) (xs : List Item) : Prop :=
  ∀ fuel r, K ≤ fuel → parseSeq fuel cnt (bytes ++ r) = .ok (xs, r)

/-- The text field names appearing as keys of a decoded map payload. -/
def keyNames (ps : List (Item × Item)) : List (List Nat) :=
  ps.filterMap fun p =>
    match p.1 with
    | .text kb => some kb
    | _ => none

/-- A single-entry envelope: the variant tag mapped to a payload blob. -/
def taggedEnvelope (t pb : List Nat) : List Nat :=
  hdr 5 1 ++ (encTextHdr t ++ pb)

/-! ## Concrete wire vectors (from the test suite of the repository) -/

/-- The test vector of test_message_secret: the map (secret ↦ [1,2,3,4]). -/
def secretArrayBytes : List Nat :=
  [0xA1, 0x66, 0x73, 0x65, 0x63, 0x72, 0x65, 0x74, 0x84, 0x01, 0x02, 0x03, 0x04]

/-- The map (secret ↦ null): the legacy absent-payload form of Secret. -/
def secretNullBytes : List Nat :=
  [0xA1, 0x66, 0x73, 0x65, 0x63, 0x72, 0x65, 0x74, 0xF6]

/-- The test vector of test_message_finish: the map (finish ↦ null). -/
def finishNullBytes : List Nat :=
  [0xA1, 0x66, 0x66, 0x69, 0x6E, 0x69, 0x73, 0x68, 0xF6]

/-- The map (finish ↦ empty map). -/
def finishEmptyMapBytes : List Nat :=
  [0xA1, 0x66, 0x66, 0x69, 0x6E, 0x69, 0x73, 0x68, 0xA0]

/-- The Chain value of the certificate-chain tests of the repository:
ark=[1,2,3,4], ask=[5,6,7,8], pek=[9,10,11,12], cek=[13,14,15,16],
pdh=[17,18,19,20], oca=[21,22,23,24] (structure fields in declaration
order ark, ask, oca, cek, pek, pdh). -/
def testChain : Chain :=
  ⟨[1, 2, 3, 4], [5, 6, 7, 8], [21, 22, 23, 24], [13, 14, 15, 16],
   [9, 10, 11, 12], [17, 18, 19, 20]⟩

/-- A certificate-chain-naples envelope whose payload map carries the six
fixed fields and one extra field named extra. -/
def chainExtraFieldBytes : List Nat :=
  taggedEnvelope tagNaples
    (hdr 5 7 ++ encTextHdr nameArk ++ encByteArr [1] ++
      encTextHdr nameAsk ++ encByteArr [2] ++ encTextHdr nameOca ++
      encByteArr [3] ++ encTextHdr nameCek ++ encByteArr [4] ++
      encTextHdr namePek ++ encByteArr [5] ++ encTextHdr namePdh ++
      encByteArr [6] ++ encTextHdr (strBytes "extra") ++ encByteArr [7])

/-! ## The payload representation resolver (split representation)

Modelled from the spec: the split (mimetype, payload) message
representation and its resolver are not present under src/ (the
MIMEMessage split form exists only as commented-out history in
src/src/lib.rs), so the resolver is modelled from the words of the
specification: attempt the structured decode first; on failure fall back
to interpreting the blob as the raw platform byte layout; if both fail,
surface a decode error. -/

/-- The resolver verdict: which interpretation of an ambiguous payload
blob was chosen. -/
inductive ResolvedPayload (α β : Type) where
  | structured (a : α)
  | raw (b : β)
deriving DecidableEq

/-- Modelled from the spec: the payload representation resolver of the
split representation (§4.2), absent from src/.  It tries the structured
decoder first and uses the raw-layout decoder only if the structured
attempt failed; when both fail it reports the ambiguous payload as
unresolvable. -/
def resolvePayload {α β : Type} (structuredDec : List Nat → Except DecodeError α)
    (rawDec : List Nat → Except DecodeError β) (blob : List Nat) :
    Except DecodeError (ResolvedPayload α β) :=
  match structuredDec blob with
  | .ok a => .ok (.structured a)
  | .error _ =>
    match rawDec blob with
    | .ok b => .ok (.raw b)
    | .error _ => .error .ambiguousPayloadUnresolvable

theorem infoOf_lt (n : Nat) : infoOf n < 28 := by
  unfold infoOf
  split
  · omega
  · split
    · omega
    · split
      · omega
      · split <;> omega

theorem head0_div (n : Nat) : infoOf n / 32 = 0 := by
  have := infoOf_lt n
  omega

theorem head0_mod (n : Nat) : infoOf n % 32 = infoOf n := by
  have := infoOf_lt n
  omega

theorem head3_div (n : Nat) : (96 + infoOf n) / 32 = 3 := by
  have := infoOf_lt n
  omega

theorem head3_mod (n : Nat) : (96 + infoOf n) % 32 = infoOf n := by
  have := infoOf_lt n
  omega

theorem head4_div (n : Nat) : (128 + infoOf n) / 32 = 4 := by
  have := infoOf_lt n
  omega

theorem head4_mod (n : Nat) : (128 + infoOf n) % 32 = infoOf n := by
  have := infoOf_lt n
  omega

theorem head5_div (n : Nat) : (160 + infoOf n) / 32 = 5 := by
  have := infoOf_lt n
  omega

theorem head5_mod (n : Nat) : (160 + infoOf n) % 32 = infoOf n := by
  have := infoOf_lt n
  omega

/-- Reading back the argument bytes the encoder wrote recovers the
argument. -/
theorem readArg_argBytes (n : Nat) (h : n < 2 ^ 64) (rest : List Nat) :
    readArg (infoOf n) (argBytes n ++ rest) = .ok (n, rest) := by
  by_cases h24 : n < 24
  · have hi : infoOf n = n := by unfold infoOf; rw [if_pos h24]
    have ha : argBytes n = [] := by unfold argBytes; rw [if_pos h24]
    rw [hi, ha]
    unfold readArg
    rw [if_pos h24]
    rfl
  · by_cases h8 : n < 2 ^ 8
    · have hi : infoOf n = 24 := by unfold infoOf; rw [if_neg h24, if_pos h8]
      have ha : argBytes n = [n] := by unfold argBytes; rw [if_neg h24, if_pos h8]
      rw [hi, ha]
      unfold readArg
      rw [if_neg (by omega : ¬(24 : Nat) < 24), if_pos rfl]
      rfl
    · by_cases h16 : n < 2 ^ 16
      · have hi : infoOf n = 25 := by
          unfold infoOf; rw [if_neg h24, if_neg h8, if_pos h16]
        have ha : argBytes n = [n / 2 ^ 8, n % 2 ^ 8] := by
          unfold argBytes; rw [if_neg h24, if_neg h8, if_pos h16]
        rw [hi, ha]
        unfold readArg
        rw [if_neg (by omega : ¬(25 : Nat) < 24),
          if_neg (by omega : ¬(25 : Nat) = 24), if_pos rfl]
        simp only [List.cons_append, List.nil_append]
        have hn : 2 ^ 8 * (n / 2 ^ 8) + n % 2 ^ 8 = n := by omega
        rw [hn]
      · by_cases h32 : n < 2 ^ 32
        · have hi : infoOf n = 26 := by
            unfold infoOf; rw [if_neg h24, if_neg h8, if_neg h16, if_pos h32]
          have ha : argBytes n =
              [n / 2 ^ 24, n / 2 ^ 16 % 2 ^ 8, n / 2 ^ 8 % 2 ^ 8, n % 2 ^ 8] := by
            unfold argBytes; rw [if_neg h24, if_neg h8, if_neg h16, if_pos h32]
          rw [hi, ha]
          unfold readArg
          rw [if_neg (by omega : ¬(26 : Nat) < 24),
            if_neg (by omega : ¬(26 : Nat) = 24),
            if_neg (by omega : ¬(26 : Nat) = 25), if_pos rfl]
          simp only [List.cons_append, List.nil_append]
          have hn : 2 ^ 24 * (n / 2 ^ 24) + 2 ^ 16 * (n / 2 ^ 16 % 2 ^ 8) +
              2 ^ 8 * (n / 2 ^ 8 % 2 ^ 8) + n % 2 ^ 8 = n := by omega
          rw [hn]
        · have hi : infoOf n = 27 := by
            unfold infoOf; rw [if_neg h24, if_neg h8, if_neg h16, if_neg h32]
          have ha : argBytes n =
              [n / 2 ^ 56 % 2 ^ 8, n / 2 ^ 48 % 2 ^ 8, n / 2 ^ 40 % 2 ^ 8,
               n / 2 ^ 32 % 2 ^ 8, n / 2 ^ 24 % 2 ^ 8, n / 2 ^ 16 % 2 ^ 8,
               n / 2 ^ 8 % 2 ^ 8, n % 2 ^ 8] := by
            unfold argBytes; rw [if_neg h24, if_neg h8, if_neg h16, if_neg h32]
          rw [hi, ha]
          unfold readArg
          rw [if_neg (by omega : ¬(27 : Nat) < 24),
            if_neg (by omega : ¬(27 : Nat) = 24),
            if_neg (by omega : ¬(27 : Nat) = 25),
            if_neg (by omega : ¬(27 : Nat) = 26), if_pos rfl]
          simp only [List.cons_append, List.nil_append]
          have hn : 2 ^ 56 * (n / 2 ^ 56 % 2 ^ 8) + 2 ^ 48 * (n / 2 ^ 48 % 2 ^ 8) +
              2 ^ 40 * (n / 2 ^ 40 % 2 ^ 8) + 2 ^ 32 * (n / 2 ^ 32 % 2 ^ 8) +
              2 ^ 24 * (n / 2 ^ 24 % 2 ^ 8) + 2 ^ 16 * (n / 2 ^ 16 % 2 ^ 8) +
              2 ^ 8 * (n / 2 ^ 8 % 2 ^ 8) + n % 2 ^ 8 = n := by omega
          rw [hn]

theorem parseSeq_zero (fuel : Nat) (bs : List Nat) :
    parseSeq fuel 0 bs = .ok ([], bs) := by
  cases fuel <;> rfl

theorem ptNil : ParsesTo 0 0 [] [] := by
  intro fuel r _
  exact parseSeq_zero fuel r

theorem ptWeaken (K₁ : Nat) (hK : K ≤ K₁) (h : ParsesTo K cnt bytes xs) :
    ParsesTo K₁ cnt bytes xs := by
  intro fuel r hf
  exact h fuel r (le_trans hK hf)

theorem parseSeq_int_step (fuel n v : Nat) (hv : v < 2 ^ 64) (r rest : List Nat)
    (xs : List Item) (h : parseSeq fuel n r = .ok (xs, rest)) :
    parseSeq (fuel + 1) (n + 1) (hdr 0 v ++ r) = .ok (.int v :: xs, rest) := by
  show parseSeq (fuel + 1) (n + 1) ((32 * 0 + infoOf v) :: (argBytes v ++ r)) = _
  simp [parseSeq, head0_div v, head0_mod v, readArg_argBytes v hv r, h]

theorem parseSeq_text_step (fuel n : Nat) (k : List Nat) (hk : k.length < 2 ^ 64)
    (r rest : List Nat) (xs : List Item) (h : parseSeq fuel n r = .ok (xs, rest)) :
    parseSeq (fuel + 1) (n + 1) (encTextHdr k ++ r) = .ok (.text k :: xs, rest) := by
  show parseSeq (fuel + 1) (n + 1)
      (((32 * 3 + infoOf k.length) :: argBytes k.length ++ k) ++ r) = _
  simp only [List.cons_append, List.append_assoc]
  simp [parseSeq, head3_div k.length, head3_mod k.length,
    readArg_argBytes k.length hk (k ++ r), List.length_append,
    Nat.le_add_right, List.take_left, List.drop_left, h]

theorem parseSeq_null_step (fuel n : Nat) (r rest : List Nat) (xs : List Item)
    (h : parseSeq fuel n r = .ok (xs, rest)) :
    parseSeq (fuel + 1) (n + 1) (0xF6 :: r) = .ok (.null :: xs, rest) := by
  simp [parseSeq, h]

theorem parseSeq_array_step (fuel n m : Nat) (hm : m < 2 ^ 64)
    (bs bs₁ bs₂ : List Nat) (ys xs : List Item)
    (h₁ : parseSeq fuel m bs = .ok (ys, bs₁))
    (h₂ : parseSeq fuel n bs₁ = .ok (xs, bs₂)) :
    parseSeq (fuel + 1) (n + 1) (hdr 4 m ++ bs) = .ok (.array ys :: xs, bs₂) := by
  show parseSeq (fuel + 1) (n + 1) ((32 * 4 + infoOf m) :: (argBytes m ++ bs)) = _
  simp [parseSeq, head4_div m, head4_mod m, readArg_argBytes m hm bs, h₁, h₂]

theorem parseSeq_map_step (fuel n m : Nat) (hm : m < 2 ^ 64)
    (bs bs₁ bs₂ : List Nat) (kvs xs : List Item) (ps : List (Item × Item))
    (h₁ : parseSeq fuel (2 * m) bs = .ok (kvs, bs₁))
    (hp : pairUp kvs = some ps)
    (h₂ : parseSeq fuel n bs₁ = .ok (xs, bs₂)) :
    parseSeq (fuel + 1) (n + 1) (hdr 5 m ++ bs) = .ok (.map ps :: xs, bs₂) := by
  show parseSeq (fuel + 1) (n + 1) ((32 * 5 + infoOf m) :: (argBytes m ++ bs)) = _
  simp [parseSeq, head5_div m, head5_mod m, readArg_argBytes m hm bs,
    h₁, hp, h₂]

theorem ptInt (v : Nat) (hv : v < 2 ^ 64) (h : ParsesTo K n bs xs) :
    ParsesTo (K + 1) (n + 1) (hdr 0 v ++ bs) (.int v :: xs) := by
  intro fuel r hf
  obtain ⟨f, rfl⟩ : ∃ f, fuel = f + 1 := ⟨fuel - 1, by omega⟩
  rw [List.append_assoc]
  exact parseSeq_int_step f n v hv (bs ++ r) r xs (h f r (by omega))

theorem ptText (k : List Nat) (hk : k.length < 2 ^ 64) (h : ParsesTo K n bs xs) :
    ParsesTo (K + 1) (n + 1) (encTextHdr k ++ bs) (.text k :: xs) := by
  intro fuel r hf
  obtain ⟨f, rfl⟩ : ∃ f, fuel = f + 1 := ⟨fuel - 1, by omega⟩
  rw [List.append_assoc]
  exact parseSeq_text_step f n k hk (bs ++ r) r xs (h f r (by omega))

theorem ptNull (h : ParsesTo K n bs xs) :
    ParsesTo (K + 1) (n + 1) (0xF6 :: bs) (.null :: xs) := by
  intro fuel r hf
  obtain ⟨f, rfl⟩ : ∃ f, fuel = f + 1 := ⟨fuel - 1, by omega⟩
  rw [List.cons_append]
  exact parseSeq_null_step f n (bs ++ r) r xs (h f r (by omega))

theorem ptArray (m : Nat) (hm : m < 2 ^ 64) (body : List Nat)
    (h₁ : ParsesTo K₁ m body ys) (h₂ : ParsesTo K₂ n bs xs) :
    ParsesTo (max K₁ K₂ + 1) (n + 1) (hdr 4 m ++ body ++ bs) (.array ys :: xs) := by
  intro fuel r hf
  obtain ⟨f, rfl⟩ : ∃ f, fuel = f + 1 := ⟨fuel - 1, by omega⟩
  simp only [List.append_assoc]
  exact parseSeq_array_step f n m hm (body ++ (bs ++ r)) (bs ++ r) r ys xs
    (h₁ f (bs ++ r) (by omega)) (h₂ f r (by omega))

theorem ptMap (m : Nat) (hm : m < 2 ^ 64) (body : List Nat)
    (h₁ : ParsesTo K₁ (2 * m) body kvs)
    (hp : pairUp kvs = some ps) (h₂ : ParsesTo K₂ n bs xs) :
    ParsesTo (max K₁ K₂ + 1) (n + 1) (hdr 5 m ++ body ++ bs) (.map ps :: xs) := by
  intro fuel r hf
  obtain ⟨f, rfl⟩ : ∃ f, fuel = f + 1 := ⟨fuel - 1, by omega⟩
  simp only [List.append_assoc]
  exact parseSeq_map_step f n m hm (body ++ (bs ++ r)) (bs ++ r) r kvs xs ps
    (h₁ f (bs ++ r) (by omega)) hp (h₂ f r (by omega))

/-- The elements of an encoded byte-sequence field parse back to the
corresponding integer items. -/
theorem ptInts (bs : List Nat) (hb : ∀ b ∈ bs, b < 2 ^ 64) :
    ParsesTo bs.length bs.length (encList bs) (bs.map .int) := by
  induction bs with
  | nil => exact ptNil
  | cons b rest ih =>
    have hstep := ptInt b (hb b (by simp)) (ih fun x hx => hb x (by simp [hx]))
    simpa [encList] using hstep

/-- An encoded `Vec<u8>` field parses back to its array-of-integers item. -/
theorem ptByteArr (bs : List Nat) (hb : ∀ b ∈ bs, b < 2 ^ 64)
    (hl : bs.length < 2 ^ 64) (h : ParsesTo K n tail xs) :
    ParsesTo (max bs.length K + 1) (n + 1) (encByteArr bs ++ tail)
      (byteArrItem bs :: xs) := by
  have harr := ptArray bs.length hl (encList bs) (ptInts bs hb) h
  simpa [encByteArr, byteArrItem, List.append_assoc] using harr

/-! Length lower bounds on encoder output, used to show that the fuel
budget of `decode` covers its own encodings. -/

theorem encList_length_ge (bs : List Nat) : bs.length ≤ (encList bs).length := by
  induction bs with
  | nil => simp [encList]
  | cons b rest ih =>
    simp only [encList, List.map_cons, List.flatten_cons, List.length_append,
      List.length_cons, hdr] at ih ⊢
    omega

theorem encByteArr_length_ge (bs : List Nat) :
    bs.length + 1 ≤ (encByteArr bs).length := by
  have := encList_length_ge bs
  simp only [encByteArr, List.length_append, hdr, List.length_cons]
  omega

/-! Unpacking the well-formedness booleans. -/

theorem bytesWf_bounds (bs : List Nat) (h : bytesWf bs = true) :
    bs.length < 2 ^ 64 ∧ ∀ b ∈ bs, b < 256 := by
  simp only [bytesWf, Bool.and_eq_true, decide_eq_true_eq, List.all_eq_true] at h
  exact h

theorem bytesWf_bounds64 (bs : List Nat) (h : bytesWf bs = true) :
    ∀ b ∈ bs, b < 2 ^ 64 := by
  intro b hb
  have := (bytesWf_bounds bs h).2 b hb
  omega

theorem chainWf_parts (c : Chain) (h : c.wf = true) :
    bytesWf c.ark = true ∧ bytesWf c.ask = true ∧ bytesWf c.oca = true ∧
      bytesWf c.cek = true ∧ bytesWf c.pek = true ∧ bytesWf c.pdh = true := by
  simp only [Chain.wf, Bool.and_eq_true] at h
  tauto

theorem launchStartWf_parts (l : LaunchStart) (h : l.wf = true) :
    bytesWf l.policy = true ∧ bytesWf l.cert = true ∧ bytesWf l.session = true := by
  simp only [LaunchStart.wf, Bool.and_eq_true] at h
  tauto

theorem measurementWf_parts (m : Measurement) (h : m.wf = true) :
    bytesWf m.build = true ∧ bytesWf m.measurement = true := by
  simp only [Measurement.wf, Bool.and_eq_true] at h
  tauto

/-- The encoded `Chain` payload parses back to exactly its item tree, at
any recursion budget of at least its own length plus one. -/
theorem ptChainPayload (c : Chain) (h : c.wf = true) :
    ParsesTo ((encodeChain c).length + 1) 1 (encodeChain c) [chainToItem c] := by
  obtain ⟨w1, w2, w3, w4, w5, w6⟩ := chainWf_parts c h
  have s0 := ptByteArr c.pdh (bytesWf_bounds64 _ w6) (bytesWf_bounds _ w6).1 ptNil
  have s1 := ptText namePdh (by decide) s0
  have s2 := ptByteArr c.pek (bytesWf_bounds64 _ w5) (bytesWf_bounds _ w5).1 s1
  have s3 := ptText namePek (by decide) s2
  have s4 := ptByteArr c.cek (bytesWf_bounds64 _ w4) (bytesWf_bounds _ w4).1 s3
  have s5 := ptText nameCek (by decide) s4
  have s6 := ptByteArr c.oca (bytesWf_bounds64 _ w3) (bytesWf_bounds _ w3).1 s5
  have s7 := ptText nameOca (by decide) s6
  have s8 := ptByteArr c.ask (bytesWf_bounds64 _ w2) (bytesWf_bounds _ w2).1 s7
  have s9 := ptText nameAsk (by decide) s8
  have s10 := ptByteArr c.ark (bytesWf_bounds64 _ w1) (bytesWf_bounds _ w1).1 s9
  have s11 := ptText nameArk (by decide) s10
  have smap := ptMap 6 (by decide) _ s11 (by rfl) ptNil
  have hlen : c.ark.length + 1 ≤ (encByteArr c.ark).length ∧
      c.ask.length + 1 ≤ (encByteArr c.ask).length ∧
      c.oca.length + 1 ≤ (encByteArr c.oca).length ∧
      c.cek.length + 1 ≤ (encByteArr c.cek).length ∧
      c.pek.length + 1 ≤ (encByteArr c.pek).length ∧
      c.pdh.length + 1 ≤ (encByteArr c.pdh).length :=
    ⟨encByteArr_length_ge _, encByteArr_length_ge _, encByteArr_length_ge _,
     encByteArr_length_ge _, encByteArr_length_ge _, encByteArr_length_ge _⟩
  have hfin := ptWeaken ((encodeChain c).length + 1)
    (by
      obtain ⟨e1, e2, e3, e4, e5, e6⟩ := hlen
      have t1 : (encTextHdr nameArk).length = 4 := rfl
      have t2 : (encTextHdr nameAsk).length = 4 := rfl
      have t3 : (encTextHdr nameOca).length = 4 := rfl
      have t4 : (encTextHdr nameCek).length = 4 := rfl
      have t5 : (encTextHdr namePek).length = 4 := rfl
      have t6 : (encTextHdr namePdh).length = 4 := rfl
      simp only [encodeChain, List.length_append, t1, t2, t3, t4, t5, t6]
      omega) smap
  simpa [encodeChain, chainToItem, chainPairs, List.append_assoc,
    List.append_nil] using hfin

/-- The encoded `LaunchStart` payload parses back to exactly its item
tree. -/
theorem ptLaunchStartPayload (l : LaunchStart) (h : l.wf = true) :
    ParsesTo ((encodeLaunchStart l).length + 1) 1 (encodeLaunchStart l)
      [launchStartToItem l] := by
  obtain ⟨w1, w2, w3⟩ := launchStartWf_parts l h
  have s0 := ptByteArr l.session (bytesWf_bounds64 _ w3) (bytesWf_bounds _ w3).1 ptNil
  have s1 := ptText nameSession (by decide) s0
  have s2 := ptByteArr l.cert (bytesWf_bounds64 _ w2) (bytesWf_bounds _ w2).1 s1
  have s3 := ptText nameCert (by decide) s2
  have s4 := ptByteArr l.policy (bytesWf_bounds64 _ w1) (bytesWf_bounds _ w1).1 s3
  have s5 := ptText namePolicy (by decide) s4
  have smap := ptMap 3 (by decide) _ s5 (by rfl) ptNil
  have e1 := encByteArr_length_ge l.policy
  have e2 := encByteArr_length_ge l.cert
  have e3 := encByteArr_length_ge l.session
  have hfin := ptWeaken ((encodeLaunchStart l).length + 1)
    (by
      have t1 : (encTextHdr namePolicy).length = 7 := rfl
      have t2 : (encTextHdr nameCert).length = 5 := rfl
      have t3 : (encTextHdr nameSession).length = 8 := rfl
      simp only [encodeLaunchStart, List.length_append, t1, t2, t3]
      omega) smap
  simpa [encodeLaunchStart, launchStartToItem, launchStartPairs,
    List.append_assoc, List.append_nil] using hfin

/-- The encoded `Measurement` payload parses back to exactly its item
tree. -/
theorem ptMeasurementPayload (m : Measurement) (h : m.wf = true) :
    ParsesTo ((encodeMeasurement m).length + 1) 1 (encodeMeasurement m)
      [measurementToItem m] := by
  obtain ⟨w1, w2⟩ := measurementWf_parts m h
  have s0 := ptByteArr m.measurement (bytesWf_bounds64 _ w2)
    (bytesWf_bounds _ w2).1 ptNil
  have s1 := ptText nameMeasurement (by decide) s0
  have s2 := ptByteArr m.build (bytesWf_bounds64 _ w1) (bytesWf_bounds _ w1).1 s1
  have s3 := ptText nameBuild (by decide) s2
  have smap := ptMap 2 (by decide) _ s3 (by rfl) ptNil
  have e1 := encByteArr_length_ge m.build
  have e2 := encByteArr_length_ge m.measurement
  have hfin := ptWeaken ((encodeMeasurement m).length + 1)
    (by
      have t1 : (encTextHdr nameBuild).length = 6 := rfl
      have t2 : (encTextHdr nameMeasurement).length = 12 := rfl
      simp only [encodeMeasurement, List.length_append, t1, t2]
      omega) smap
  simpa [encodeMeasurement, measurementToItem, measurementPairs,
    List.append_assoc, List.append_nil] using hfin

/-- The encoded `Secret` payload parses back to its array-of-integers
item. -/
theorem ptSecretPayload (bs : List Nat) (h : bytesWf bs = true) :
    ParsesTo ((encByteArr bs).length + 1) 1 (encByteArr bs) [byteArrItem bs] := by
  have s0 := ptByteArr bs (bytesWf_bounds64 _ h) (bytesWf_bounds _ h).1 ptNil
  have hfin := ptWeaken ((encByteArr bs).length + 1)
    (by
      have := encByteArr_length_ge bs
      omega) s0
  simpa [List.append_nil] using hfin

/-- Encoding then parsing any constructible `Message` recovers exactly its
item tree, consuming the whole encoding. -/
theorem ptEncode (m : Message) (h : m.wf = true) :
    ParsesTo ((encode m).length + 1) 1 (encode m) [msgToItem m] := by
  cases m with
  | certificateChainNaples c =>
    have hp := ptChainPayload c h
    have s1 := ptText tagNaples (by decide) hp
    have smap := ptMap 1 (by decide) _ s1 (by rfl) ptNil
    have hfin := ptWeaken ((encode (Message.certificateChainNaples c)).length + 1)
      (by
        have t : (encTextHdr tagNaples).length = 26 := rfl
        simp only [encode, tagOf, payloadBytes, List.length_append, t]
        omega) smap
    simpa [encode, tagOf, payloadBytes, msgToItem, payloadItemOf,
      List.append_assoc, List.append_nil] using hfin
  | certificateChainRome c =>
    have hp := ptChainPayload c h
    have s1 := ptText tagRome (by decide) hp
    have smap := ptMap 1 (by decide) _ s1 (by rfl) ptNil
    have hfin := ptWeaken ((encode (Message.certificateChainRome c)).length + 1)
      (by
        have t : (encTextHdr tagRome).length = 23 := rfl
        simp only [encode, tagOf, payloadBytes, List.length_append, t]
        omega) smap
    simpa [encode, tagOf, payloadBytes, msgToItem, payloadItemOf,
      List.append_assoc, List.append_nil] using hfin
  | launchStart l =>
    have hp := ptLaunchStartPayload l h
    have s1 := ptText tagLaunchStart (by decide) hp
    have smap := ptMap 1 (by decide) _ s1 (by rfl) ptNil
    have hfin := ptWeaken ((encode (Message.launchStart l)).length + 1)
      (by
        have t : (encTextHdr tagLaunchStart).length = 13 := rfl
        simp only [encode, tagOf, payloadBytes, List.length_append, t]
        omega) smap
    simpa [encode, tagOf, payloadBytes, msgToItem, payloadItemOf,
      List.append_assoc, List.append_nil] using hfin
  | measurement me =>
    have hp := ptMeasurementPayload me h
    have s1 := ptText tagMeasurement (by decide) hp
    have smap := ptMap 1 (by decide) _ s1 (by rfl) ptNil
    have hfin := ptWeaken ((encode (Message.measurement me)).length + 1)
      (by
        have t : (encTextHdr tagMeasurement).length = 12 := rfl
        simp only [encode, tagOf, payloadBytes, List.length_append, t]
        omega) smap
    simpa [encode, tagOf, payloadBytes, msgToItem, payloadItemOf,
      List.append_assoc, List.append_nil] using hfin
  | secret bs =>
    have hp := ptSecretPayload bs h
    have s1 := ptText tagSecret (by decide) hp
    have smap := ptMap 1 (by decide) _ s1 (by rfl) ptNil
    have hfin := ptWeaken ((encode (Message.secret bs)).length + 1)
      (by
        have t : (encTextHdr tagSecret).length = 7 := rfl
        simp only [encode, tagOf, payloadBytes, List.length_append, t]
        omega) smap
    simpa [encode, tagOf, payloadBytes, msgToItem, payloadItemOf,
      List.append_assoc, List.append_nil] using hfin
  | finish f =>
    have s0 := ptNull ptNil
    have s1 := ptText tagFinish (by decide) s0
    have smap := ptMap 1 (by decide) _ s1 (by rfl) ptNil
    have hfin := ptWeaken ((encode (Message.finish f)).length + 1)
      (by
        have t : (encTextHdr tagFinish).length = 7 := rfl
        simp only [encode, tagOf, payloadBytes, List.length_append, t,
          List.length_cons, List.length_nil]
        omega) smap
    simpa [encode, tagOf, payloadBytes, msgToItem, payloadItemOf,
      List.append_assoc, List.append_nil] using hfin

/-! ## Typed decoding of the encoder's item trees -/

theorem decodeBytes_map (bs : List Nat) (hb : ∀ b ∈ bs, b < 256) :
    decodeBytes (bs.map .int) = .ok bs := by
  induction bs with
  | nil => rfl
  | cons b rest ih =>
    have h1 : b < 256 := hb b (by simp)
    have h2 := ih fun x hx => hb x (by simp [hx])
    simp [decodeBytes, decodeU8, h1, h2]

theorem decodeVecU8_byteArr (bs : List Nat) (hb : ∀ b ∈ bs, b < 256) :
    decodeVecU8 (byteArrItem bs) = .ok bs := by
  simp [decodeVecU8, byteArrItem, decodeBytes_map bs hb]

theorem decodeChain_chainToItem (c : Chain) (h : c.wf = true) :
    decodeChain (chainToItem c) = .ok c := by
  obtain ⟨w1, w2, w3, w4, w5, w6⟩ := chainWf_parts c h
  have d1 := decodeVecU8_byteArr c.ark (bytesWf_bounds _ w1).2
  have d2 := decodeVecU8_byteArr c.ask (bytesWf_bounds _ w2).2
  have d3 := decodeVecU8_byteArr c.oca (bytesWf_bounds _ w3).2
  have d4 := decodeVecU8_byteArr c.cek (bytesWf_bounds _ w4).2
  have d5 := decodeVecU8_byteArr c.pek (bytesWf_bounds _ w5).2
  have d6 := decodeVecU8_byteArr c.pdh (bytesWf_bounds _ w6).2
  simp [chainToItem, chainPairs, decodeChain, decodeChainFields, setOnce,
    d1, d2, d3, d4, d5, d6,
    (by decide : ¬(nameAsk = nameArk)),
    (by decide : ¬(nameOca = nameArk)), (by decide : ¬(nameOca = nameAsk)),
    (by decide : ¬(nameCek = nameArk)), (by decide : ¬(nameCek = nameAsk)),
    (by decide : ¬(nameCek = nameOca)),
    (by decide : ¬(namePek = nameArk)), (by decide : ¬(namePek = nameAsk)),
    (by decide : ¬(namePek = nameOca)), (by decide : ¬(namePek = nameCek)),
    (by decide : ¬(namePdh = nameArk)), (by decide : ¬(namePdh = nameAsk)),
    (by decide : ¬(namePdh = nameOca)), (by decide : ¬(namePdh = nameCek)),
    (by decide : ¬(namePdh = namePek))]

theorem decodeLaunchStart_toItem (l : LaunchStart) (h : l.wf = true) :
    decodeLaunchStart (launchStartToItem l) = .ok l := by
  obtain ⟨w1, w2, w3⟩ := launchStartWf_parts l h
  have d1 := decodeVecU8_byteArr l.policy (bytesWf_bounds _ w1).2
  have d2 := decodeVecU8_byteArr l.cert (bytesWf_bounds _ w2).2
  have d3 := decodeVecU8_byteArr l.session (bytesWf_bounds _ w3).2
  simp [launchStartToItem, launchStartPairs, decodeLaunchStart,
    decodeLaunchStartFields, setOnce, d1, d2, d3,
    (by decide : ¬(nameCert = namePolicy)),
    (by decide : ¬(nameSession = namePolicy)),
    (by decide : ¬(nameSession = nameCert))]

theorem decodeMeasurement_toItem (me : Measurement) (h : me.wf = true) :
    decodeMeasurement (measurementToItem me) = .ok me := by
  obtain ⟨w1, w2⟩ := measurementWf_parts me h
  have d1 := decodeVecU8_byteArr me.build (bytesWf_bounds _ w1).2
  have d2 := decodeVecU8_byteArr me.measurement (bytesWf_bounds _ w2).2
  simp [measurementToItem, measurementPairs, decodeMeasurement,
    decodeMeasurementFields, setOnce, d1, d2,
    (by decide : ¬(nameMeasurement = nameBuild))]

theorem decodeMessage_msgToItem (m : Message) (h : m.wf = true) :
    decodeMessage (msgToItem m) = .ok m := by
  cases m with
  | certificateChainNaples c =>
    simp [msgToItem, tagOf, payloadItemOf, decodeMessage, decodeTagged,
      decodeChain_chainToItem c h]
  | certificateChainRome c =>
    simp [msgToItem, tagOf, payloadItemOf, decodeMessage, decodeTagged,
      decodeChain_chainToItem c h, (by decide : ¬(tagRome = tagNaples))]
  | launchStart l =>
    simp [msgToItem, tagOf, payloadItemOf, decodeMessage, decodeTagged,
      decodeLaunchStart_toItem l h,
      (by decide : ¬(tagLaunchStart = tagNaples)),
      (by decide : ¬(tagLaunchStart = tagRome))]
  | measurement me =>
    simp [msgToItem, tagOf, payloadItemOf, decodeMessage, decodeTagged,
      decodeMeasurement_toItem me h,
      (by decide : ¬(tagMeasurement = tagNaples)),
      (by decide : ¬(tagMeasurement = tagRome)),
      (by decide : ¬(tagMeasurement = tagLaunchStart))]
  | secret bs =>
    simp [msgToItem, tagOf, payloadItemOf, decodeMessage, decodeTagged,
      decodeVecU8_byteArr bs (bytesWf_bounds _ h).2,
      (by decide : ¬(tagSecret = tagNaples)),
      (by decide : ¬(tagSecret = tagRome)),
      (by decide : ¬(tagSecret = tagLaunchStart)),
      (by decide : ¬(tagSecret = tagMeasurement))]
  | finish f =>
    simp [msgToItem, tagOf, payloadItemOf, decodeMessage, decodeTagged,
      decodeFinish,
      (by decide : ¬(tagFinish = tagNaples)),
      (by decide : ¬(tagFinish = tagRome)),
      (by decide : ¬(tagFinish = tagLaunchStart)),
      (by decide : ¬(tagFinish = tagMeasurement)),
      (by decide : ¬(tagFinish = tagSecret))]

/-- The round-trip core: decoding the encoding of any constructible
`Message` value recovers exactly that value. -/
theorem decode_encode (m : Message) (h : m.wf = true) :
    decode (encode m) = .ok m := by
  have hp := ptEncode m h ((encode m).length + 1) [] (le_refl _)
  rw [List.append_nil] at hp
  simp [decode, hp, decodeMessage_msgToItem m h]

/-! ## Field-name analysis of the struct decoders -/

theorem keyNames_cons_text (kb : List Nat) (v : Item) (ps : List (Item × Item)) :
    keyNames ((Item.text kb, v) :: ps) = kb :: keyNames ps := rfl

/-- If the `Chain` field loop succeeds, then every field slot was already
filled on entry or its field name occurs among the keys. -/
theorem decodeChainFields_ok_names (ps : List (Item × Item)) :
    ∀ a₁ a₂ a₃ a₄ a₅ a₆ c,
      decodeChainFields ps a₁ a₂ a₃ a₄ a₅ a₆ = .ok c →
      (a₁.isSome = true ∨ nameArk ∈ keyNames ps) ∧
      (a₂.isSome = true ∨ nameAsk ∈ keyNames ps) ∧
      (a₃.isSome = true ∨ nameOca ∈ keyNames ps) ∧
      (a₄.isSome = true ∨ nameCek ∈ keyNames ps) ∧
      (a₅.isSome = true ∨ namePek ∈ keyNames ps) ∧
      (a₆.isSome = true ∨ namePdh ∈ keyNames ps) := by
  induction ps with
  | nil =>
    intro a₁ a₂ a₃ a₄ a₅ a₆ c h
    cases a₁ <;> cases a₂ <;> cases a₃ <;> cases a₄ <;> cases a₅ <;> cases a₆ <;>
      simp_all [decodeChainFields]
  | cons p rest ih =>
    intro a₁ a₂ a₃ a₄ a₅ a₆ c h
    obtain ⟨k, v⟩ := p
    cases k with
    | text kb =>
      simp only [decodeChainFields] at h
      simp only [keyNames_cons_text, List.mem_cons]
      by_cases h1 : kb = nameArk
      · subst h1
        rw [if_pos rfl] at h
        cases hs : setOnce a₁ v with
        | error e => rw [hs] at h; simp at h
        | ok x =>
          rw [hs] at h
          have hr := ih (some x) a₂ a₃ a₄ a₅ a₆ c h
          exact ⟨Or.inr (Or.inl rfl), hr.2.1.imp id Or.inr, hr.2.2.1.imp id Or.inr, hr.2.2.2.1.imp id Or.inr, hr.2.2.2.2.1.imp id Or.inr, hr.2.2.2.2.2.imp id Or.inr⟩
      · rw [if_neg h1] at h
        by_cases h2 : kb = nameAsk
        · subst h2
          rw [if_pos rfl] at h
          cases hs : setOnce a₂ v with
          | error e => rw [hs] at h; simp at h
          | ok x =>
            rw [hs] at h
            have hr := ih a₁ (some x) a₃ a₄ a₅ a₆ c h
            exact ⟨hr.1.imp id Or.inr, Or.inr (Or.inl rfl), hr.2.2.1.imp id Or.inr, hr.2.2.2.1.imp id Or.inr, hr.2.2.2.2.1.imp id Or.inr, hr.2.2.2.2.2.imp id Or.inr⟩
        · rw [if_neg h2] at h
          by_cases h3 : kb = nameOca
          · subst h3
            rw [if_pos rfl] at h
            cases hs : setOnce a₃ v with
            | error e => rw [hs] at h; simp at h
            | ok x =>
              rw [hs] at h
              have hr := ih a₁ a₂ (some x) a₄ a₅ a₆ c h
              exact ⟨hr.1.imp id Or.inr, hr.2.1.imp id Or.inr, Or.inr (Or.inl rfl), hr.2.2.2.1.imp id Or.inr, hr.2.2.2.2.1.imp id Or.inr, hr.2.2.2.2.2.imp id Or.inr⟩
          · rw [if_neg h3] at h
            by_cases h4 : kb = nameCek
            · subst h4
              rw [if_pos rfl] at h
              cases hs : setOnce a₄ v with
              | error e => rw [hs] at h; simp at h
              | ok x =>
                rw [hs] at h
                have hr := ih a₁ a₂ a₃ (some x) a₅ a₆ c h
                exact ⟨hr.1.imp id Or.inr, hr.2.1.imp id Or.inr, hr.2.2.1.imp id Or.inr, Or.inr (Or.inl rfl), hr.2.2.2.2.1.imp id Or.inr, hr.2.2.2.2.2.imp id Or.inr⟩
            · rw [if_neg h4] at h
              by_cases h5 : kb = namePek
              · subst h5
                rw [if_pos rfl] at h
                cases hs : setOnce a₅ v with
                | error e => rw [hs] at h; simp at h
                | ok x =>
                  rw [hs] at h
                  have hr := ih a₁ a₂ a₃ a₄ (some x) a₆ c h
                  exact ⟨hr.1.imp id Or.inr, hr.2.1.imp id Or.inr, hr.2.2.1.imp id Or.inr, hr.2.2.2.1.imp id Or.inr, Or.inr (Or.inl rfl), hr.2.2.2.2.2.imp id Or.inr⟩
              · rw [if_neg h5] at h
                by_cases h6 : kb = namePdh
                · subst h6
                  rw [if_pos rfl] at h
                  cases hs : setOnce a₆ v with
                  | error e => rw [hs] at h; simp at h
                  | ok x =>
                    rw [hs] at h
                    have hr := ih a₁ a₂ a₃ a₄ a₅ (some x) c h
                    exact ⟨hr.1.imp id Or.inr, hr.2.1.imp id Or.inr, hr.2.2.1.imp id Or.inr, hr.2.2.2.1.imp id Or.inr, hr.2.2.2.2.1.imp id Or.inr, Or.inr (Or.inl rfl)⟩
                · rw [if_neg h6] at h
                  have hr := ih a₁ a₂ a₃ a₄ a₅ a₆ c h
                  exact ⟨hr.1.imp id Or.inr, hr.2.1.imp id Or.inr, hr.2.2.1.imp id Or.inr, hr.2.2.2.1.imp id Or.inr, hr.2.2.2.2.1.imp id Or.inr, hr.2.2.2.2.2.imp id Or.inr⟩
    | int n =>
      have hx : decodeChainFields (((Item.int n), v) :: rest) a₁ a₂ a₃ a₄ a₅ a₆ =
          Except.error DecodeError.payloadShapeMismatch := rfl
      rw [hx] at h
      simp at h
    | bytes bbs =>
      have hx : decodeChainFields (((Item.bytes bbs), v) :: rest) a₁ a₂ a₃ a₄ a₅ a₆ =
          Except.error DecodeError.payloadShapeMismatch := rfl
      rw [hx] at h
      simp at h
    | array xs =>
      have hx : decodeChainFields (((Item.array xs), v) :: rest) a₁ a₂ a₃ a₄ a₅ a₆ =
          Except.error DecodeError.payloadShapeMismatch := rfl
      rw [hx] at h
      simp at h
    | map mps =>
      have hx : decodeChainFields (((Item.map mps), v) :: rest) a₁ a₂ a₃ a₄ a₅ a₆ =
          Except.error DecodeError.payloadShapeMismatch := rfl
      rw [hx] at h
      simp at h
    | null =>
      have hx : decodeChainFields ((Item.null, v) :: rest) a₁ a₂ a₃ a₄ a₅ a₆ =
          Except.error DecodeError.payloadShapeMismatch := rfl
      rw [hx] at h
      simp at h

/-- If the `LaunchStart` field loop succeeds, every slot was filled on
entry or its field name occurs among the keys. -/
theorem decodeLaunchStartFields_ok_names (ps : List (Item × Item)) :
    ∀ a₁ a₂ a₃ l,
      decodeLaunchStartFields ps a₁ a₂ a₃ = .ok l →
      (a₁.isSome = true ∨ namePolicy ∈ keyNames ps) ∧
      (a₂.isSome = true ∨ nameCert ∈ keyNames ps) ∧
      (a₃.isSome = true ∨ nameSession ∈ keyNames ps) := by
  induction ps with
  | nil =>
    intro a₁ a₂ a₃ l h
    cases a₁ <;> cases a₂ <;> cases a₃ <;>
      simp_all [decodeLaunchStartFields]
  | cons p rest ih =>
    intro a₁ a₂ a₃ l h
    obtain ⟨k, v⟩ := p
    cases k with
    | text kb =>
      simp only [decodeLaunchStartFields] at h
      simp only [keyNames_cons_text, List.mem_cons]
      by_cases h1 : kb = namePolicy
      · subst h1
        rw [if_pos rfl] at h
        cases hs : setOnce a₁ v with
        | error e => rw [hs] at h; simp at h
        | ok x =>
          rw [hs] at h
          have hr := ih (some x) a₂ a₃ l h
          exact ⟨Or.inr (Or.inl rfl), hr.2.1.imp id Or.inr, hr.2.2.imp id Or.inr⟩
      · rw [if_neg h1] at h
        by_cases h2 : kb = nameCert
        · subst h2
          rw [if_pos rfl] at h
          cases hs : setOnce a₂ v with
          | error e => rw [hs] at h; simp at h
          | ok x =>
            rw [hs] at h
            have hr := ih a₁ (some x) a₃ l h
            exact ⟨hr.1.imp id Or.inr, Or.inr (Or.inl rfl), hr.2.2.imp id Or.inr⟩
        · rw [if_neg h2] at h
          by_cases h3 : kb = nameSession
          · subst h3
            rw [if_pos rfl] at h
            cases hs : setOnce a₃ v with
            | error e => rw [hs] at h; simp at h
            | ok x =>
              rw [hs] at h
              have hr := ih a₁ a₂ (some x) l h
              exact ⟨hr.1.imp id Or.inr, hr.2.1.imp id Or.inr, Or.inr (Or.inl rfl)⟩
          · rw [if_neg h3] at h
            have hr := ih a₁ a₂ a₃ l h
            exact ⟨hr.1.imp id Or.inr, hr.2.1.imp id Or.inr, hr.2.2.imp id Or.inr⟩
    | int n =>
      have hx : decodeLaunchStartFields (((Item.int n), v) :: rest) a₁ a₂ a₃ =
          Except.error DecodeError.payloadShapeMismatch := rfl
      rw [hx] at h
      simp at h
    | bytes bbs =>
      have hx : decodeLaunchStartFields (((Item.bytes bbs), v) :: rest) a₁ a₂ a₃ =
          Except.error DecodeError.payloadShapeMismatch := rfl
      rw [hx] at h
      simp at h
    | array xs =>
      have hx : decodeLaunchStartFields (((Item.array xs), v) :: rest) a₁ a₂ a₃ =
          Except.error DecodeError.payloadShapeMismatch := rfl
      rw [hx] at h
      simp at h
    | map mps =>
      have hx : decodeLaunchStartFields (((Item.map mps), v) :: rest) a₁ a₂ a₃ =
          Except.error DecodeError.payloadShapeMismatch := rfl
      rw [hx] at h
      simp at h
    | null =>
      have hx : decodeLaunchStartFields ((Item.null, v) :: rest) a₁ a₂ a₃ =
          Except.error DecodeError.payloadShapeMismatch := rfl
      rw [hx] at h
      simp at h

/-- If the `Measurement` field loop succeeds, every slot was filled on
entry or its field name occurs among the keys. -/
theorem decodeMeasurementFields_ok_names (ps : List (Item × Item)) :
    ∀ a₁ a₂ me,
      decodeMeasurementFields ps a₁ a₂ = .ok me →
      (a₁.isSome = true ∨ nameBuild ∈ keyNames ps) ∧
      (a₂.isSome = true ∨ nameMeasurement ∈ keyNames ps) := by
  induction ps with
  | nil =>
    intro a₁ a₂ me h
    cases a₁ <;> cases a₂ <;>
      simp_all [decodeMeasurementFields]
  | cons p rest ih =>
    intro a₁ a₂ me h
    obtain ⟨k, v⟩ := p
    cases k with
    | text kb =>
      simp only [decodeMeasurementFields] at h
      simp only [keyNames_cons_text, List.mem_cons]
      by_cases h1 : kb = nameBuild
      · subst h1
        rw [if_pos rfl] at h
        cases hs : setOnce a₁ v with
        | error e => rw [hs] at h; simp at h
        | ok x =>
          rw [hs] at h
          have hr := ih (some x) a₂ me h
          exact ⟨Or.inr (Or.inl rfl), hr.2.imp id Or.inr⟩
      · rw [if_neg h1] at h
        by_cases h2 : kb = nameMeasurement
        · subst h2
          rw [if_pos rfl] at h
          cases hs : setOnce a₂ v with
          | error e => rw [hs] at h; simp at h
          | ok x =>
            rw [hs] at h
            have hr := ih a₁ (some x) me h
            exact ⟨hr.1.imp id Or.inr, Or.inr (Or.inl rfl)⟩
        · rw [if_neg h2] at h
          have hr := ih a₁ a₂ me h
          exact ⟨hr.1.imp id Or.inr, hr.2.imp id Or.inr⟩
    | int n =>
      have hx : decodeMeasurementFields (((Item.int n), v) :: rest) a₁ a₂ =
          Except.error DecodeError.payloadShapeMismatch := rfl
      rw [hx] at h
      simp at h
    | bytes bbs =>
      have hx : decodeMeasurementFields (((Item.bytes bbs), v) :: rest) a₁ a₂ =
          Except.error DecodeError.payloadShapeMismatch := rfl
      rw [hx] at h
      simp at h
    | array xs =>
      have hx : decodeMeasurementFields (((Item.array xs), v) :: rest) a₁ a₂ =
          Except.error DecodeError.payloadShapeMismatch := rfl
      rw [hx] at h
      simp at h
    | map mps =>
      have hx : decodeMeasurementFields (((Item.map mps), v) :: rest) a₁ a₂ =
          Except.error DecodeError.payloadShapeMismatch := rfl
      rw [hx] at h
      simp at h
    | null =>
      have hx : decodeMeasurementFields ((Item.null, v) :: rest) a₁ a₂ =
          Except.error DecodeError.payloadShapeMismatch := rfl
      rw [hx] at h
      simp at h

/-! ## Missing and unknown fields -/

/-- A map payload missing one of the six fixed `Chain` field names is a
decode error. -/
theorem decodeChain_missing (ps : List (Item × Item))
    (hmiss : ∃ n ∈ chainNames, n ∉ keyNames ps) :
    ∃ e, decodeChain (Item.map ps) = .error e := by
  cases hres : decodeChain (Item.map ps) with
  | error e => exact ⟨e, rfl⟩
  | ok c =>
    exfalso
    have hok : decodeChainFields ps none none none none none none = .ok c := by
      simpa [decodeChain] using hres
    obtain ⟨t1, t2, t3, t4, t5, t6⟩ :=
      decodeChainFields_ok_names ps none none none none none none c hok
    obtain ⟨n, hn, hnot⟩ := hmiss
    simp only [chainNames, List.mem_cons, List.not_mem_nil, or_false] at hn
    rcases hn with rfl | rfl | rfl | rfl | rfl | rfl <;> simp_all

/-- A map payload missing one of the three fixed `LaunchStart` field
names is a decode error. -/
theorem decodeLaunchStart_missing (ps : List (Item × Item))
    (hmiss : ∃ n ∈ launchStartNames, n ∉ keyNames ps) :
    ∃ e, decodeLaunchStart (Item.map ps) = .error e := by
  cases hres : decodeLaunchStart (Item.map ps) with
  | error e => exact ⟨e, rfl⟩
  | ok l =>
    exfalso
    have hok : decodeLaunchStartFields ps none none none = .ok l := by
      simpa [decodeLaunchStart] using hres
    obtain ⟨t1, t2, t3⟩ := decodeLaunchStartFields_ok_names ps none none none l hok
    obtain ⟨n, hn, hnot⟩ := hmiss
    simp only [launchStartNames, List.mem_cons, List.not_mem_nil, or_false] at hn
    rcases hn with rfl | rfl | rfl <;> simp_all

/-- A map payload missing one of the two fixed `Measurement` field names
is a decode error. -/
theorem decodeMeasurement_missing (ps : List (Item × Item))
    (hmiss : ∃ n ∈ measurementNames, n ∉ keyNames ps) :
    ∃ e, decodeMeasurement (Item.map ps) = .error e := by
  cases hres : decodeMeasurement (Item.map ps) with
  | error e => exact ⟨e, rfl⟩
  | ok me =>
    exfalso
    have hok : decodeMeasurementFields ps none none = .ok me := by
      simpa [decodeMeasurement] using hres
    obtain ⟨t1, t2⟩ := decodeMeasurementFields_ok_names ps none none me hok
    obtain ⟨n, hn, hnot⟩ := hmiss
    simp only [measurementNames, List.mem_cons, List.not_mem_nil, or_false] at hn
    rcases hn with rfl | rfl <;> simp_all

/-- An entry with an unknown field name is skipped by the `Chain` field
loop (the serde default), leaving the decode result unchanged. -/
theorem decodeChain_ignores_unknown (kb : List Nat) (v : Item)
    (ps : List (Item × Item)) (h : kb ∉ chainNames) :
    decodeChain (Item.map ((Item.text kb, v) :: ps)) =
      decodeChain (Item.map ps) := by
  simp only [chainNames, List.mem_cons, List.not_mem_nil, or_false,
    not_or] at h
  obtain ⟨h1, h2, h3, h4, h5, h6⟩ := h
  simp [decodeChain, decodeChainFields, h1, h2, h3, h4, h5, h6]

/-- An entry with an unknown field name is skipped by the `LaunchStart`
field loop. -/
theorem decodeLaunchStart_ignores_unknown (kb : List Nat) (v : Item)
    (ps : List (Item × Item)) (h : kb ∉ launchStartNames) :
    decodeLaunchStart (Item.map ((Item.text kb, v) :: ps)) =
      decodeLaunchStart (Item.map ps) := by
  simp only [launchStartNames, List.mem_cons, List.not_mem_nil, or_false,
    not_or] at h
  obtain ⟨h1, h2, h3⟩ := h
  simp [decodeLaunchStart, decodeLaunchStartFields, h1, h2, h3]

/-- An entry with an unknown field name is skipped by the `Measurement`
field loop. -/
theorem decodeMeasurement_ignores_unknown (kb : List Nat) (v : Item)
    (ps : List (Item × Item)) (h : kb ∉ measurementNames) :
    decodeMeasurement (Item.map ((Item.text kb, v) :: ps)) =
      decodeMeasurement (Item.map ps) := by
  simp only [measurementNames, List.mem_cons, List.not_mem_nil, or_false,
    not_or] at h
  obtain ⟨h1, h2⟩ := h
  simp [decodeMeasurement, decodeMeasurementFields, h1, h2]

/-! ## Cross-shape payload rejection -/

theorem keyNames_chainPairs (c : Chain) : keyNames (chainPairs c) = chainNames := rfl

theorem keyNames_launchStartPairs (l : LaunchStart) :
    keyNames (launchStartPairs l) = launchStartNames := rfl

theorem keyNames_measurementPairs (m : Measurement) :
    keyNames (measurementPairs m) = measurementNames := rfl

/-- A `LaunchStart`-shaped payload is rejected by the `Chain` decoder. -/
theorem decodeChain_rejects_launchStart (l : LaunchStart) :
    ∃ e, decodeChain (launchStartToItem l) = .error e := by
  refine decodeChain_missing (launchStartPairs l) ⟨nameArk, by decide, ?_⟩
  rw [keyNames_launchStartPairs]
  decide

/-- A `Measurement`-shaped payload is rejected by the `Chain` decoder. -/
theorem decodeChain_rejects_measurement (m : Measurement) :
    ∃ e, decodeChain (measurementToItem m) = .error e := by
  refine decodeChain_missing (measurementPairs m) ⟨nameArk, by decide, ?_⟩
  rw [keyNames_measurementPairs]
  decide

/-- A `Chain`-shaped payload is rejected by the `LaunchStart` decoder. -/
theorem decodeLaunchStart_rejects_chain (c : Chain) :
    ∃ e, decodeLaunchStart (chainToItem c) = .error e := by
  refine decodeLaunchStart_missing (chainPairs c) ⟨namePolicy, by decide, ?_⟩
  rw [keyNames_chainPairs]
  decide

/-- A `Measurement`-shaped payload is rejected by the `LaunchStart`
decoder. -/
theorem decodeLaunchStart_rejects_measurement (m : Measurement) :
    ∃ e, decodeLaunchStart (measurementToItem m) = .error e := by
  refine decodeLaunchStart_missing (measurementPairs m) ⟨namePolicy, by decide, ?_⟩
  rw [keyNames_measurementPairs]
  decide

/-- A `Chain`-shaped payload is rejected by the `Measurement` decoder. -/
theorem decodeMeasurement_rejects_chain (c : Chain) :
    ∃ e, decodeMeasurement (chainToItem c) = .error e := by
  refine decodeMeasurement_missing (chainPairs c) ⟨nameBuild, by decide, ?_⟩
  rw [keyNames_chainPairs]
  decide

/-- A `LaunchStart`-shaped payload is rejected by the `Measurement`
decoder. -/
theorem decodeMeasurement_rejects_launchStart (l : LaunchStart) :
    ∃ e, decodeMeasurement (launchStartToItem l) = .error e := by
  refine decodeMeasurement_missing (launchStartPairs l) ⟨nameBuild, by decide, ?_⟩
  rw [keyNames_launchStartPairs]
  decide

/-! ## Byte-level tagged envelopes -/

theorem encode_eq_taggedEnvelope (m : Message) :
    encode m = taggedEnvelope (tagOf m) (payloadBytes m) := rfl

/-- Decoding a tagged envelope reduces to the typed decoder on the parsed
tag and payload item, whenever the payload bytes parse to a single item
within their own length budget. -/
theorem decode_taggedEnvelope (t : List Nat) (ht : t.length < 2 ^ 64)
    (pb : List Nat) (pitem : Item)
    (hp : ParsesTo (pb.length + 1) 1 pb [pitem]) :
    decode (taggedEnvelope t pb) = decodeTagged t pitem := by
  have s1 := ptText t ht hp
  have smap := ptMap 1 (by decide) _ s1 (by rfl) ptNil
  rw [List.append_nil] at smap
  have h1 : 1 ≤ (encTextHdr t).length := by
    simp only [encTextHdr, List.length_append, hdr, List.length_cons]
    omega
  have hw := ptWeaken ((taggedEnvelope t pb).length + 1)
    (by
      simp only [taggedEnvelope, List.length_append, hdr, List.length_cons]
      have h2 : (argBytes 1).length = 0 := rfl
      omega) smap
  have hparse := hw ((taggedEnvelope t pb).length + 1) [] (le_refl _)
  rw [List.append_nil] at hparse
  simp only [taggedEnvelope, List.length_append] at hparse ⊢
  simp only [Nat.zero_add] at hparse
  simp [decode, decodeMessage, hparse]

/-- A null payload blob (the encoding of `Finish`) parses to the null
item. -/
theorem ptNullPayload : ParsesTo ([0xF6].length + 1) 1 [0xF6] [Item.null] :=
  ptWeaken ([0xF6].length + 1) (by omega) (ptNull ptNil)

/-- A tag that is not one of the six variant tags is an unknown-variant
decode error. -/
theorem decodeTagged_unknown (kb : List Nat) (v : Item) (h : kb ∉ allTags) :
    decodeTagged kb v = .error .unknownVariant := by
  simp only [allTags, List.mem_cons, List.not_mem_nil, or_false, not_or] at h
  obtain ⟨h1, h2, h3, h4, h5, h6⟩ := h
  simp [decodeTagged, h1, h2, h3, h4, h5, h6]

/-! ## The claims -/

/-- C1: for every constructible Message value m across all six variants,
decoding the bytes produced by encoding m yields exactly m, and decode
never fails on bytes produced by encode. -/
theorem c1_roundtrip (m : Message) (h : m.wf = true) :
    decode (encode m) = .ok m :=
  decode_encode m h

theorem c1_roundtrip_witness :
    (Message.secret [1, 2, 3, 4]).wf = true ∧
      decode (encode (Message.secret [1, 2, 3, 4])) =
        .ok (Message.secret [1, 2, 3, 4]) :=
  ⟨by decide, c1_roundtrip (Message.secret [1, 2, 3, 4]) (by decide)⟩

/-- C2 counterexample: the claim asserts that decoding the bytes of the
map (secret ↦ null) succeeds with an absent payload; on the code,
Secret's payload is a Vec of bytes, null is not accepted, and decoding
these bytes is a decode error. -/
theorem c2_counterexample :
    decode secretNullBytes = .error .payloadShapeMismatch := by decide

/-- C2 (amended): decoding the bytes of (secret ↦ [1,2,3,4]) yields
Secret with payload [1,2,3,4]; decoding the legacy form (secret ↦ null)
is a decode error, because the decoder accepts only the byte-sequence
era. -/
theorem c2_secret_eras :
    decode secretArrayBytes = .ok (.secret [1, 2, 3, 4]) ∧
      decode secretNullBytes = .error .payloadShapeMismatch := by decide

/-- C3 counterexample: the claim asserts that a map payload carrying an
extra field name beyond the fixed set is a decode error; on the code,
unknown fields are ignored (the serde default), and this envelope with an
extra seventh field decodes successfully. -/
theorem c3_counterexample :
    decode chainExtraFieldBytes =
      .ok (.certificateChainNaples ⟨[1], [2], [3], [4], [5], [6]⟩) := by decide

/-- C3 (amended): for every nested container payload (Chain, LaunchStart,
Measurement), a map payload missing one of the fixed field names is a
decode error, while an entry with an extra field name beyond the fixed
set is ignored, leaving the decode result unchanged. -/
theorem c3_fixed_field_names :
    (∀ ps : List (Item × Item), (∃ n ∈ chainNames, n ∉ keyNames ps) →
      ∃ e, decodeChain (Item.map ps) = .error e) ∧
    (∀ ps : List (Item × Item), (∃ n ∈ launchStartNames, n ∉ keyNames ps) →
      ∃ e, decodeLaunchStart (Item.map ps) = .error e) ∧
    (∀ ps : List (Item × Item), (∃ n ∈ measurementNames, n ∉ keyNames ps) →
      ∃ e, decodeMeasurement (Item.map ps) = .error e) ∧
    (∀ kb v ps, kb ∉ chainNames →
      decodeChain (Item.map ((Item.text kb, v) :: ps)) =
        decodeChain (Item.map ps)) ∧
    (∀ kb v ps, kb ∉ launchStartNames →
      decodeLaunchStart (Item.map ((Item.text kb, v) :: ps)) =
        decodeLaunchStart (Item.map ps)) ∧
    (∀ kb v ps, kb ∉ measurementNames →
      decodeMeasurement (Item.map ((Item.text kb, v) :: ps)) =
        decodeMeasurement (Item.map ps)) :=
  ⟨decodeChain_missing, decodeLaunchStart_missing, decodeMeasurement_missing,
   fun kb v ps h => decodeChain_ignores_unknown kb v ps h,
   fun kb v ps h => decodeLaunchStart_ignores_unknown kb v ps h,
   fun kb v ps h => decodeMeasurement_ignores_unknown kb v ps h⟩

theorem c3_fixed_field_names_witness :
    ∃ e, decodeChain (Item.map []) = .error e :=
  c3_fixed_field_names.1 [] ⟨nameArk, by decide, by decide⟩

/-- C4: the encoded form of every Message is a map with exactly one key,
the variant tag, and the tag is one of the six fixed kebab-case strings;
the encoded bytes parse back to exactly that single-entry map; and a
single-entry map whose tag is not one of the six is an unknown-variant
decode error. -/
theorem c4_tagged_envelope :
    (∀ m : Message,
      msgToItem m = .map [(.text (tagOf m), payloadItemOf m)] ∧
        tagOf m ∈ allTags) ∧
    (∀ m : Message, m.wf = true →
      ParsesTo ((encode m).length + 1) 1 (encode m) [msgToItem m]) ∧
    (∀ kb v, kb ∉ allTags →
      decodeMessage (.map [(.text kb, v)]) = .error .unknownVariant) := by
  refine ⟨fun m => ⟨rfl, ?_⟩, ptEncode, fun kb v h => ?_⟩
  · cases m <;> simp [tagOf, allTags]
  · have hx : decodeMessage (Item.map [(Item.text kb, v)]) = decodeTagged kb v := rfl
    rw [hx]
    exact decodeTagged_unknown kb v h

theorem c4_tagged_envelope_witness :
    decodeMessage (.map [(.text (strBytes "bogus"), .null)]) =
      .error .unknownVariant :=
  c4_tagged_envelope.2.2 (strBytes "bogus") .null (by decide)

/-- C5: for every payload of one variant shape placed under the tag of a
different variant, decoding the crafted envelope returns a decode error:
the payload is never silently coerced into either variant. -/
theorem c5_no_cross_decode :
    (∀ c : Chain, c.wf = true →
      ∀ t ∈ [tagLaunchStart, tagMeasurement, tagSecret, tagFinish],
        ∃ e, decode (taggedEnvelope t (encodeChain c)) = .error e) ∧
    (∀ l : LaunchStart, l.wf = true →
      ∀ t ∈ [tagNaples, tagRome, tagMeasurement, tagSecret, tagFinish],
        ∃ e, decode (taggedEnvelope t (encodeLaunchStart l)) = .error e) ∧
    (∀ me : Measurement, me.wf = true →
      ∀ t ∈ [tagNaples, tagRome, tagLaunchStart, tagSecret, tagFinish],
        ∃ e, decode (taggedEnvelope t (encodeMeasurement me)) = .error e) ∧
    (∀ bs : List Nat, bytesWf bs = true →
      ∀ t ∈ [tagNaples, tagRome, tagLaunchStart, tagMeasurement, tagFinish],
        ∃ e, decode (taggedEnvelope t (encByteArr bs)) = .error e) ∧
    (∀ t ∈ [tagNaples, tagRome, tagLaunchStart, tagMeasurement, tagSecret],
      ∃ e, decode (taggedEnvelope t [0xF6]) = .error e) := by
  refine ⟨?_, ?_, ?_, ?_, ?_⟩
  · intro c h t ht
    simp only [List.mem_cons, List.not_mem_nil, or_false] at ht
    rcases ht with rfl | rfl | rfl | rfl
    · rw [decode_taggedEnvelope tagLaunchStart (by decide) (encodeChain c) (chainToItem c) (ptChainPayload c h)]
      obtain ⟨e, he⟩ := decodeLaunchStart_rejects_chain c
      exact ⟨e, by simp [decodeTagged, he, (by decide : ¬(tagLaunchStart = tagNaples)),
        (by decide : ¬(tagLaunchStart = tagRome))]⟩
    · rw [decode_taggedEnvelope tagMeasurement (by decide) (encodeChain c) (chainToItem c) (ptChainPayload c h)]
      obtain ⟨e, he⟩ := decodeMeasurement_rejects_chain c
      exact ⟨e, by simp [decodeTagged, he, (by decide : ¬(tagMeasurement = tagNaples)),
        (by decide : ¬(tagMeasurement = tagRome)),
        (by decide : ¬(tagMeasurement = tagLaunchStart))]⟩
    · rw [decode_taggedEnvelope tagSecret (by decide) (encodeChain c) (chainToItem c) (ptChainPayload c h)]
      have he : decodeVecU8 (chainToItem c) = .error .payloadShapeMismatch := rfl
      exact ⟨.payloadShapeMismatch, by simp [decodeTagged, he, (by decide : ¬(tagSecret = tagNaples)),
        (by decide : ¬(tagSecret = tagRome)),
        (by decide : ¬(tagSecret = tagLaunchStart)),
        (by decide : ¬(tagSecret = tagMeasurement))]⟩
    · rw [decode_taggedEnvelope tagFinish (by decide) (encodeChain c) (chainToItem c) (ptChainPayload c h)]
      have he : decodeFinish (chainToItem c) = .error .payloadShapeMismatch := rfl
      exact ⟨.payloadShapeMismatch, by simp [decodeTagged, he, (by decide : ¬(tagFinish = tagNaples)),
        (by decide : ¬(tagFinish = tagRome)),
        (by decide : ¬(tagFinish = tagLaunchStart)),
        (by decide : ¬(tagFinish = tagMeasurement)),
        (by decide : ¬(tagFinish = tagSecret))]⟩
  · intro l h t ht
    simp only [List.mem_cons, List.not_mem_nil, or_false] at ht
    rcases ht with rfl | rfl | rfl | rfl | rfl
    · rw [decode_taggedEnvelope tagNaples (by decide) (encodeLaunchStart l) (launchStartToItem l) (ptLaunchStartPayload l h)]
      obtain ⟨e, he⟩ := decodeChain_rejects_launchStart l
      exact ⟨e, by simp [decodeTagged, he]⟩
    · rw [decode_taggedEnvelope tagRome (by decide) (encodeLaunchStart l) (launchStartToItem l) (ptLaunchStartPayload l h)]
      obtain ⟨e, he⟩ := decodeChain_rejects_launchStart l
      exact ⟨e, by simp [decodeTagged, he, (by decide : ¬(tagRome = tagNaples))]⟩
    · rw [decode_taggedEnvelope tagMeasurement (by decide) (encodeLaunchStart l) (launchStartToItem l) (ptLaunchStartPayload l h)]
      obtain ⟨e, he⟩ := decodeMeasurement_rejects_launchStart l
      exact ⟨e, by simp [decodeTagged, he, (by decide : ¬(tagMeasurement = tagNaples)),
        (by decide : ¬(tagMeasurement = tagRome)),
        (by decide : ¬(tagMeasurement = tagLaunchStart))]⟩
    · rw [decode_taggedEnvelope tagSecret (by decide) (encodeLaunchStart l) (launchStartToItem l) (ptLaunchStartPayload l h)]
      have he : decodeVecU8 (launchStartToItem l) = .error .payloadShapeMismatch := rfl
      exact ⟨.payloadShapeMismatch, by simp [decodeTagged, he, (by decide : ¬(tagSecret = tagNaples)),
        (by decide : ¬(tagSecret = tagRome)),
        (by decide : ¬(tagSecret = tagLaunchStart)),
        (by decide : ¬(tagSecret = tagMeasurement))]⟩
    · rw [decode_taggedEnvelope tagFinish (by decide) (encodeLaunchStart l) (launchStartToItem l) (ptLaunchStartPayload l h)]
      have he : decodeFinish (launchStartToItem l) = .error .payloadShapeMismatch := rfl
      exact ⟨.payloadShapeMismatch, by simp [decodeTagged, he, (by decide : ¬(tagFinish = tagNaples)),
        (by decide : ¬(tagFinish = tagRome)),
        (by decide : ¬(tagFinish = tagLaunchStart)),
        (by decide : ¬(tagFinish = tagMeasurement)),
        (by decide : ¬(tagFinish = tagSecret))]⟩
  · intro me h t ht
    simp only [List.mem_cons, List.not_mem_nil, or_false] at ht
    rcases ht with rfl | rfl | rfl | rfl | rfl
    · rw [decode_taggedEnvelope tagNaples (by decide) (encodeMeasurement me) (measurementToItem me) (ptMeasurementPayload me h)]
      obtain ⟨e, he⟩ := decodeChain_rejects_measurement me
      exact ⟨e, by simp [decodeTagged, he]⟩
    · rw [decode_taggedEnvelope tagRome (by decide) (encodeMeasurement me) (measurementToItem me) (ptMeasurementPayload me h)]
      obtain ⟨e, he⟩ := decodeChain_rejects_measurement me
      exact ⟨e, by simp [decodeTagged, he, (by decide : ¬(tagRome = tagNaples))]⟩
    · rw [decode_taggedEnvelope tagLaunchStart (by decide) (encodeMeasurement me) (measurementToItem me) (ptMeasurementPayload me h)]
      obtain ⟨e, he⟩ := decodeLaunchStart_rejects_measurement me
      exact ⟨e, by simp [decodeTagged, he, (by decide : ¬(tagLaunchStart = tagNaples)),
        (by decide : ¬(tagLaunchStart = tagRome))]⟩
    · rw [decode_taggedEnvelope tagSecret (by decide) (encodeMeasurement me) (measurementToItem me) (ptMeasurementPayload me h)]
      have he : decodeVecU8 (measurementToItem me) = .error .payloadShapeMismatch := rfl
      exact ⟨.payloadShapeMismatch, by simp [decodeTagged, he, (by decide : ¬(tagSecret = tagNaples)),
        (by decide : ¬(tagSecret = tagRome)),
        (by decide : ¬(tagSecret = tagLaunchStart)),
        (by decide : ¬(tagSecret = tagMeasurement))]⟩
    · rw [decode_taggedEnvelope tagFinish (by decide) (encodeMeasurement me) (measurementToItem me) (ptMeasurementPayload me h)]
      have he : decodeFinish (measurementToItem me) = .error .payloadShapeMismatch := rfl
      exact ⟨.payloadShapeMismatch, by simp [decodeTagged, he, (by decide : ¬(tagFinish = tagNaples)),
        (by decide : ¬(tagFinish = tagRome)),
        (by decide : ¬(tagFinish = tagLaunchStart)),
        (by decide : ¬(tagFinish = tagMeasurement)),
        (by decide : ¬(tagFinish = tagSecret))]⟩
  · intro bs h t ht
    simp only [List.mem_cons, List.not_mem_nil, or_false] at ht
    rcases ht with rfl | rfl | rfl | rfl | rfl
    · rw [decode_taggedEnvelope tagNaples (by decide) (encByteArr bs) (byteArrItem bs) (ptSecretPayload bs h)]
      have he : decodeChain (byteArrItem bs) = .error .payloadShapeMismatch := rfl
      exact ⟨.payloadShapeMismatch, by simp [decodeTagged, he]⟩
    · rw [decode_taggedEnvelope tagRome (by decide) (encByteArr bs) (byteArrItem bs) (ptSecretPayload bs h)]
      have he : decodeChain (byteArrItem bs) = .error .payloadShapeMismatch := rfl
      exact ⟨.payloadShapeMismatch, by simp [decodeTagged, he, (by decide : ¬(tagRome = tagNaples))]⟩
    · rw [decode_taggedEnvelope tagLaunchStart (by decide) (encByteArr bs) (byteArrItem bs) (ptSecretPayload bs h)]
      have he : decodeLaunchStart (byteArrItem bs) = .error .payloadShapeMismatch := rfl
      exact ⟨.payloadShapeMismatch, by simp [decodeTagged, he, (by decide : ¬(tagLaunchStart = tagNaples)),
        (by decide : ¬(tagLaunchStart = tagRome))]⟩
    · rw [decode_taggedEnvelope tagMeasurement (by decide) (encByteArr bs) (byteArrItem bs) (ptSecretPayload bs h)]
      have he : decodeMeasurement (byteArrItem bs) = .error .payloadShapeMismatch := rfl
      exact ⟨.payloadShapeMismatch, by simp [decodeTagged, he, (by decide : ¬(tagMeasurement = tagNaples)),
        (by decide : ¬(tagMeasurement = tagRome)),
        (by decide : ¬(tagMeasurement = tagLaunchStart))]⟩
    · rw [decode_taggedEnvelope tagFinish (by decide) (encByteArr bs) (byteArrItem bs) (ptSecretPayload bs h)]
      have he : decodeFinish (byteArrItem bs) = .error .payloadShapeMismatch := rfl
      exact ⟨.payloadShapeMismatch, by simp [decodeTagged, he, (by decide : ¬(tagFinish = tagNaples)),
        (by decide : ¬(tagFinish = tagRome)),
        (by decide : ¬(tagFinish = tagLaunchStart)),
        (by decide : ¬(tagFinish = tagMeasurement)),
        (by decide : ¬(tagFinish = tagSecret))]⟩
  · intro t ht
    simp only [List.mem_cons, List.not_mem_nil, or_false] at ht
    rcases ht with rfl | rfl | rfl | rfl | rfl
    · rw [decode_taggedEnvelope tagNaples (by decide) ([0xF6]) (Item.null) (ptNullPayload)]
      have he : decodeChain (Item.null) = .error .payloadShapeMismatch := rfl
      exact ⟨.payloadShapeMismatch, by simp [decodeTagged, he]⟩
    · rw [decode_taggedEnvelope tagRome (by decide) ([0xF6]) (Item.null) (ptNullPayload)]
      have he : decodeChain (Item.null) = .error .payloadShapeMismatch := rfl
      exact ⟨.payloadShapeMismatch, by simp [decodeTagged, he, (by decide : ¬(tagRome = tagNaples))]⟩
    · rw [decode_taggedEnvelope tagLaunchStart (by decide) ([0xF6]) (Item.null) (ptNullPayload)]
      have he : decodeLaunchStart (Item.null) = .error .payloadShapeMismatch := rfl
      exact ⟨.payloadShapeMismatch, by simp [decodeTagged, he, (by decide : ¬(tagLaunchStart = tagNaples)),
        (by decide : ¬(tagLaunchStart = tagRome))]⟩
    · rw [decode_taggedEnvelope tagMeasurement (by decide) ([0xF6]) (Item.null) (ptNullPayload)]
      have he : decodeMeasurement (Item.null) = .error .payloadShapeMismatch := rfl
      exact ⟨.payloadShapeMismatch, by simp [decodeTagged, he, (by decide : ¬(tagMeasurement = tagNaples)),
        (by decide : ¬(tagMeasurement = tagRome)),
        (by decide : ¬(tagMeasurement = tagLaunchStart))]⟩
    · rw [decode_taggedEnvelope tagSecret (by decide) ([0xF6]) (Item.null) (ptNullPayload)]
      have he : decodeVecU8 (Item.null) = .error .payloadShapeMismatch := rfl
      exact ⟨.payloadShapeMismatch, by simp [decodeTagged, he, (by decide : ¬(tagSecret = tagNaples)),
        (by decide : ¬(tagSecret = tagRome)),
        (by decide : ¬(tagSecret = tagLaunchStart)),
        (by decide : ¬(tagSecret = tagMeasurement))]⟩

theorem c5_no_cross_decode_witness :
    ∃ e, decode (taggedEnvelope tagLaunchStart (encodeChain testChain)) =
      .error e :=
  c5_no_cross_decode.1 testChain (by decide) tagLaunchStart (by decide)

/-- C6 counterexample: the claim asserts the decoder accepts both an
empty map and an explicit null as the Finish payload; on the code, the
unit struct Finish deserializes from null only, and the empty-map form is
a decode error. -/
theorem c6_counterexample :
    decode finishEmptyMapBytes = .error .payloadShapeMismatch := by decide

/-- C6 (amended): decoding the bytes of (finish ↦ null) yields the Finish
message with no fields, and re-encoding that message yields byte-identical
output; the decoder accepts the explicit null payload, but an empty map as
the Finish payload is a decode error. -/
theorem c6_finish_null :
    decode finishNullBytes = .ok (.finish ⟨⟩) ∧
      encode (.finish ⟨⟩) = finishNullBytes ∧
      decode finishEmptyMapBytes = .error .payloadShapeMismatch := by decide

/-- C7: every leaf byte-sequence field is encoded as a CBOR array of
unsigned integer byte values, one element per byte, and not as a CBOR
byte string: the item tree of the encoding uses the array-of-integers
form for every Vec payload and field, and the encoded bytes parse back to
exactly that tree. -/
theorem c7_byte_arrays :
    (∀ bs : List Nat,
      byteArrItem bs = .array (bs.map .int) ∧ byteArrItem bs ≠ .bytes bs) ∧
    (∀ c : Chain, payloadItemOf (.certificateChainNaples c) =
      .map [(.text nameArk, .array (c.ark.map .int)),
            (.text nameAsk, .array (c.ask.map .int)),
            (.text nameOca, .array (c.oca.map .int)),
            (.text nameCek, .array (c.cek.map .int)),
            (.text namePek, .array (c.pek.map .int)),
            (.text namePdh, .array (c.pdh.map .int))]) ∧
    (∀ l : LaunchStart, payloadItemOf (.launchStart l) =
      .map [(.text namePolicy, .array (l.policy.map .int)),
            (.text nameCert, .array (l.cert.map .int)),
            (.text nameSession, .array (l.session.map .int))]) ∧
    (∀ me : Measurement, payloadItemOf (.measurement me) =
      .map [(.text nameBuild, .array (me.build.map .int)),
            (.text nameMeasurement, .array (me.measurement.map .int))]) ∧
    (∀ bs : List Nat, payloadItemOf (.secret bs) = .array (bs.map .int)) ∧
    (∀ m : Message, m.wf = true →
      ParsesTo ((encode m).length + 1) 1 (encode m) [msgToItem m]) :=
  ⟨fun _ => ⟨rfl, fun hcontra => Item.noConfusion hcontra⟩,
   fun _ => rfl, fun _ => rfl, fun _ => rfl, fun _ => rfl, ptEncode⟩

theorem c7_byte_arrays_witness :
    ParsesTo ((encode (Message.secret [1, 2])).length + 1) 1
      (encode (Message.secret [1, 2])) [msgToItem (Message.secret [1, 2])] :=
  c7_byte_arrays.2.2.2.2.2 (Message.secret [1, 2]) (by decide)

/-- C8: every constructible Chain round-trips exactly through encode then
decode under both the certificate-chain-naples and the
certificate-chain-rome tags: the codec imposes no size constraint
distinguishing Naples from Rome certificate components. -/
theorem c8_chain_both_tags (c : Chain) (h : c.wf = true) :
    decode (encode (.certificateChainNaples c)) =
        .ok (.certificateChainNaples c) ∧
      decode (encode (.certificateChainRome c)) =
        .ok (.certificateChainRome c) :=
  ⟨decode_encode (.certificateChainNaples c) h,
   decode_encode (.certificateChainRome c) h⟩

theorem c8_chain_both_tags_witness :
    testChain.wf = true ∧
      (decode (encode (.certificateChainNaples testChain)) =
          .ok (.certificateChainNaples testChain) ∧
        decode (encode (.certificateChainRome testChain)) =
          .ok (.certificateChainRome testChain)) :=
  ⟨by decide, c8_chain_both_tags testChain (by decide)⟩

/-- C9: the payload representation resolver attempts the structured
decode first and falls back to the raw platform layout only if the
structured decode fails; a blob valid under both interpretations resolves
to the structured one, and a decode error surfaces only when both
attempts fail. -/
theorem c9_resolver_ordering {α β : Type}
    (s : List Nat → Except DecodeError α) (r : List Nat → Except DecodeError β)
    (blob : List Nat) :
    (∀ a, s blob = .ok a → resolvePayload s r blob = .ok (.structured a)) ∧
    (∀ e b, s blob = .error e → r blob = .ok b →
      resolvePayload s r blob = .ok (.raw b)) ∧
    (∀ e e₂, s blob = .error e → r blob = .error e₂ →
      resolvePayload s r blob = .error .ambiguousPayloadUnresolvable) := by
  refine ⟨fun a ha => ?_, fun e b he hb => ?_, fun e e₂ he he₂ => ?_⟩
  · simp [resolvePayload, ha]
  · simp [resolvePayload, he, hb]
  · simp [resolvePayload, he, he₂]

theorem c9_resolver_ordering_witness :
    resolvePayload (fun _ => (.ok 7 : Except DecodeError Nat))
      (fun _ => (.ok [1] : Except DecodeError (List Nat))) [0] =
      .ok (.structured 7) :=
  (c9_resolver_ordering (fun _ => .ok 7) (fun _ => .ok [1]) [0]).1 7 rfl

/-- C10: decoding is total at the public interface: every byte sequence,
including empty or truncated input, decodes to either a Message or a
structured error value; in particular the empty input and a lone map head
are truncated-input errors, never a default or half-built Message. -/
theorem c10_decode_total :
    (∀ bs : List Nat, (∃ m, decode bs = .ok m) ∨ (∃ e, decode bs = .error e)) ∧
      decode [] = .error .truncatedInput ∧
      decode [0xA1] = .error .truncatedInput := by
  refine ⟨fun bs => ?_, by decide, by decide⟩
  cases h : decode bs with
  | ok m => exact Or.inl ⟨m, rfl⟩
  | error e => exact Or.inr ⟨e, rfl⟩

end Koine
